import Mathlib

/-!
Verification of the language-model registry of `src/lib/ai/models.ts`.

The registry keeps a process-wide catalog of (provider, model) → handle,
a parallel metadata store keyed by the string `provider ++ "::" ++ name`,
and a refresh coordinator with a TTL throttle and a single-flight
in-flight promise.  JavaScript objects and `Map`s are modelled as
association lists preserving insertion order; model handles are opaque
and modelled as natural-number identities allocated from a counter;
`Date.now()` is an explicit clock field; the single-threaded event loop
is modelled as a labelled transition system whose atomic steps are the
synchronous segments between `await` points of `refreshModels`.
-/

namespace Models

/-! ### Association lists with JavaScript object / Map update semantics -/

/-- Property lookup: first entry with the given key. -/
def alGet {α : Type} (l : List (String × α)) (k : String) : Option α :=
  match l with
  | [] => none
  | e :: rest => if e.1 = k then some e.2 else alGet rest k

/-- Does any entry carry the key? -/
def alHasKey {α : Type} (l : List (String × α)) (k : String) : Bool :=
  match l with
  | [] => false
  | e :: rest => e.1 = k || alHasKey rest k

/-- Overwrite every entry carrying the key, positions preserved. -/
def alUpdate {α : Type} (l : List (String × α)) (k : String) (v : α) :
    List (String × α) :=
  match l with
  | [] => []
  | e :: rest => (if e.1 = k then (k, v) else e) :: alUpdate rest k v

/-- Property write: update an existing key in place, else append
(JavaScript objects and Maps keep first-insertion order). -/
def alSet {α : Type} (l : List (String × α)) (k : String) (v : α) :
    List (String × α) :=
  if alHasKey l k then alUpdate l k v else l ++ [(k, v)]

/-- `delete obj[k]` / `map.delete(k)`. -/
def alErase {α : Type} (l : List (String × α)) (k : String) : List (String × α) :=
  match l with
  | [] => []
  | e :: rest => if e.1 = k then alErase rest k else e :: alErase rest k

/-- Keep exactly the entries whose key satisfies the predicate. -/
def alFilterKeys {α : Type} (l : List (String × α)) (keep : String → Bool) :
    List (String × α) :=
  match l with
  | [] => []
  | e :: rest =>
    if keep e.1 then e :: alFilterKeys rest keep else alFilterKeys rest keep

theorem alGet_alUpdate_ne {α : Type} (l : List (String × α)) (k : String) (v : α)
    (k' : String) (hne : k' ≠ k) :
    alGet (alUpdate l k v) k' = alGet l k' := by
  induction l with
  | nil => rfl
  | cons e l ih =>
    by_cases h : e.1 = k
    · simp [alUpdate, alGet, h, Ne.symm hne, hne, ih]
    · simp only [alUpdate, if_neg h, alGet]
      by_cases h2 : e.1 = k' <;> simp [h2, ih]

theorem alGet_alSet_self {α : Type} (l : List (String × α)) (k : String) (v : α) :
    alGet (alSet l k v) k = some v := by
  rw [alSet]
  by_cases hk : alHasKey l k
  · rw [if_pos hk]
    induction l with
    | nil => simp [alHasKey] at hk
    | cons e l ih =>
      by_cases h : e.1 = k
      · simp [alUpdate, alGet, h]
      · rw [alHasKey] at hk
        simp only [h] at hk
        simp only [alUpdate, if_neg h, alGet, if_neg h]
        exact ih (by simpa using hk)
  · rw [if_neg hk]
    induction l with
    | nil => simp [alGet]
    | cons e l ih =>
      rw [alHasKey] at hk
      have h : ¬ e.1 = k := fun h => hk (by simp [h])
      simp only [List.cons_append, alGet, if_neg h]
      exact ih (fun h2 => hk (by simp [h2]))

theorem alGet_alSet_ne {α : Type} (l : List (String × α)) (k : String) (v : α)
    (k' : String) (hne : k' ≠ k) :
    alGet (alSet l k v) k' = alGet l k' := by
  rw [alSet]
  by_cases hk : alHasKey l k
  · rw [if_pos hk]
    exact alGet_alUpdate_ne l k v k' hne
  · rw [if_neg hk]
    induction l with
    | nil => simp [alGet, Ne.symm hne]
    | cons e l ih =>
      simp only [List.cons_append, alGet]
      by_cases h : e.1 = k'
      · simp [h]
      · rw [if_neg h, if_neg h]
        exact ih (fun h2 => hk (by simp [alHasKey, h2]))

theorem alGet_alErase_self {α : Type} (l : List (String × α)) (k : String) :
    alGet (alErase l k) k = none := by
  induction l with
  | nil => rfl
  | cons e l ih =>
    by_cases h : e.1 = k <;> simp [alErase, alGet, h, ih]

theorem alGet_alErase_ne {α : Type} (l : List (String × α)) (k : String)
    (k' : String) (hne : k' ≠ k) :
    alGet (alErase l k) k' = alGet l k' := by
  induction l with
  | nil => rfl
  | cons e l ih =>
    by_cases h : e.1 = k
    · rw [alErase, if_pos h, ih, alGet,
        if_neg (fun h2 : e.1 = k' => hne (h2.symm.trans h))]
    · simp only [alErase, if_neg h, alGet]
      by_cases h2 : e.1 = k' <;> simp [h2, ih]

/-- Lookup through a key filter: kept keys read through. -/
theorem alGet_alFilterKeys_of_pos {α : Type} (l : List (String × α))
    (keep : String → Bool) (k : String) (hk : keep k = true) :
    alGet (alFilterKeys l keep) k = alGet l k := by
  induction l with
  | nil => rfl
  | cons e l ih =>
    by_cases h : e.1 = k
    · rw [alFilterKeys, if_pos (h ▸ hk)]
      simp [alGet, h]
    · rw [alFilterKeys]
      by_cases h2 : keep e.1 = true
      · rw [if_pos h2]
        simp [alGet, h, ih]
      · rw [if_neg h2, ih, alGet, if_neg h]

/-- Lookup through a key filter: dropped keys read as absent. -/
theorem alGet_alFilterKeys_of_neg {α : Type} (l : List (String × α))
    (keep : String → Bool) (k : String) (hk : keep k = false) :
    alGet (alFilterKeys l keep) k = none := by
  induction l with
  | nil => rfl
  | cons e l ih =>
    rw [alFilterKeys]
    by_cases h2 : keep e.1 = true
    · rw [if_pos h2, alGet,
        if_neg (fun h => by rw [h, hk] at h2; simp at h2)]
      exact ih
    · rw [if_neg h2]
      exact ih

/-! ### Model keys and the `startsWith`-based metadata prefix filter -/

/-- `modelKey(provider, name)` from the source: `` `${provider}::${name}` ``. -/
def modelKey (provider name : String) : String := provider ++ "::" ++ name

/-- JavaScript `String.prototype.startsWith`, on the character-list view. -/
def jsStartsWith (s pat : String) : Bool := pat.data.isPrefixOf s.data

theorem jsStartsWith_modelKey_self (p n : String) :
    jsStartsWith (modelKey p n) (p ++ "::") = true := by
  simp only [jsStartsWith, modelKey, List.isPrefixOf_iff_prefix,
    String.data_append]
  exact List.prefix_append _ _

/-- Core list fact behind key separation: for colon-free `a ≠ b`,
`a ++ "::"` is never a prefix of `b ++ "::" ++ tail`. -/
theorem no_clash_aux (a : List Char) :
    ∀ (b tail : List Char), ':' ∉ a → ':' ∉ b → a ≠ b →
      ¬ (a ++ [':', ':']) <+: (b ++ ':' :: ':' :: tail) := by
  induction a with
  | nil =>
    intro b tail _ hb hne
    cases b with
    | nil => exact absurd rfl hne
    | cons c b' =>
      intro h
      rw [List.nil_append, List.cons_append, List.cons_prefix_cons] at h
      exact hb (h.1 ▸ List.mem_cons_self _ _)
  | cons x a' ih =>
    intro b tail ha hb hne
    cases b with
    | nil =>
      intro h
      rw [List.cons_append, List.nil_append, List.cons_prefix_cons] at h
      exact ha (h.1 ▸ List.mem_cons_self _ _)
    | cons c b' =>
      intro h
      rw [List.cons_append, List.cons_append, List.cons_prefix_cons] at h
      obtain ⟨hx, h'⟩ := h
      have ha' : ':' ∉ a' := fun m => ha (List.mem_cons_of_mem _ m)
      have hb' : ':' ∉ b' := fun m => hb (List.mem_cons_of_mem _ m)
      have hne' : a' ≠ b' := fun e => hne (by rw [hx, e])
      exact ih b' tail ha' hb' hne' h'

/-- Distinct colon-free providers: one provider's clear pattern never
matches another provider's metadata key. -/
theorem jsStartsWith_modelKey_ne (p q n : String) (hp : ':' ∉ p.data)
    (hq : ':' ∉ q.data) (hne : p ≠ q) :
    jsStartsWith (modelKey q n) (p ++ "::") = false := by
  rw [Bool.eq_false_iff]
  intro h
  simp only [jsStartsWith, modelKey, String.data_append,
    List.isPrefixOf_iff_prefix] at h
  refine no_clash_aux p.data q.data n.data hp hq
    (fun e => hne (String.ext e)) ?_
  simpa [List.append_assoc] using h

/-- Colon-free providers give injective metadata keys. -/
theorem modelKey_inj (p q n m : String) (hp : ':' ∉ p.data) (hq : ':' ∉ q.data)
    (h : modelKey p n = modelKey q m) : p = q ∧ n = m := by
  have hpq : p = q := by
    by_contra hne
    have h1 : jsStartsWith (modelKey q m) (p ++ "::") = false :=
      jsStartsWith_modelKey_ne p q m hp hq hne
    rw [← h, jsStartsWith_modelKey_self] at h1
    simp at h1
  refine ⟨hpq, ?_⟩
  subst hpq
  have hd : (p ++ "::").data ++ n.data = (p ++ "::").data ++ m.data := by
    have := congrArg String.data h
    simpa [modelKey, String.data_append, List.append_assoc] using this
  exact String.ext (List.append_cancel_left hd)

/-! ### Provider directory and fixed capability tables (lines 35-101) -/

/-- Keys of the `providerFactories` table; each maps a raw model name to a
freshly constructed handle. -/
def providerFactories : List String :=
  ["openai", "google", "anthropic", "xai", "ollama", "groq", "openRouter"]

/-- `imageInputSupportedProviders` (lines 57-62). -/
def imageInputSupportedProviders : List String :=
  ["google", "xai", "openai", "anthropic"]

/-- `fallbackToolUnsupportedKeys` (lines 83-93). -/
def fallbackToolUnsupportedKeys : List String :=
  [modelKey "openai" "o4-mini",
   modelKey "ollama" "gemma3:1b",
   modelKey "ollama" "gemma3:4b",
   modelKey "ollama" "gemma3:12b",
   modelKey "openRouter" "openai/gpt-oss-20b:free",
   modelKey "openRouter" "qwen/qwen3-8b:free",
   modelKey "openRouter" "qwen/qwen3-14b:free",
   modelKey "openRouter" "deepseek/deepseek-r1-0528:free",
   modelKey "openRouter" "google/gemini-2.0-flash-exp:free"]

/-- `hasValidKey` (lines 95-97): `!!key && key !== "****"`; an absent
environment variable is `none`, the empty string is falsy. -/
def hasValidKey (key : Option String) : Bool :=
  match key with
  | none => false
  | some s => !(s == "") && !(s == "****")

/-- The relevant process environment variables. -/
structure Env where
  openaiApiKey : Option String := none
  googleApiKey : Option String := none
  anthropicApiKey : Option String := none
  xaiApiKey : Option String := none
  groqApiKey : Option String := none
  openRouterApiKey : Option String := none
deriving DecidableEq, Repr

/-- `providerKeyCheckers` (lines 45-53), as a partial table. -/
def providerKeyCheckers (env : Env) (provider : String) : Option Bool :=
  if provider = "openai" then some (hasValidKey env.openaiApiKey)
  else if provider = "google" then some (hasValidKey env.googleApiKey)
  else if provider = "anthropic" then some (hasValidKey env.anthropicApiKey)
  else if provider = "xai" then some (hasValidKey env.xaiApiKey)
  else if provider = "groq" then some (hasValidKey env.groqApiKey)
  else if provider = "openRouter" then some (hasValidKey env.openRouterApiKey)
  else if provider = "ollama" then some true
  else none

/-- `checkProviderAPIKey` (lines 376-385): the explicit per-dynamic-provider
override map is consulted before the static checkers; unknown providers
default to `true`. -/
def checkProviderAPIKey (env : Env) (explicitKeys : List (String × Bool))
    (provider : String) : Bool :=
  match alGet explicitKeys provider with
  | some b => b
  | none =>
    match providerKeyCheckers env provider with
    | some b => b
    | none => true

/-! ### The catalog and metadata stores (lines 64-139) -/

/-- One record of the `modelMetadata` map (lines 73-80). -/
structure Meta where
  displayName : Option String
  isToolCallUnsupported : Bool
  isImageInputUnsupported : Bool
deriving DecidableEq, Repr

/-- `RegisterOptions` (lines 27-33); the handle is a pre-built identity. -/
structure RegisterOptions where
  displayName : Option String := none
  apiName : Option String := none
  isToolCallUnsupported : Option Bool := none
  isImageInputUnsupported : Option Bool := none
  model : Option Nat := none
deriving DecidableEq, Repr

/-- The registry stores: `allModels` (provider → name → handle),
`modelMetadata` (key → record), and the handle-identity counter that stands
for "each factory call constructs a fresh object". -/
structure RegistryState where
  allModels : List (String × List (String × Nat))
  modelMetadata : List (String × Meta)
  nextHandle : Nat
deriving DecidableEq, Repr

/-- The metadata record stored by `registerModel` (lines 119-126), with the
deny-list / allow-list defaults for unsupplied flags. -/
def mkRegisteredMeta (provider name : String) (o : RegisterOptions) : Meta :=
  { displayName := o.displayName
    isToolCallUnsupported :=
      o.isToolCallUnsupported.getD
        (fallbackToolUnsupportedKeys.contains (modelKey provider name))
    isImageInputUnsupported :=
      o.isImageInputUnsupported.getD
        (!(imageInputSupportedProviders.contains provider)) }

/-- Store a resolved handle into both stores (lines 114-127). -/
def registerWith (s : RegistryState) (provider name : String)
    (o : RegisterOptions) (h nextH : Nat) : RegistryState :=
  let bucket := (alGet s.allModels provider).getD []
  { allModels := alSet s.allModels provider (alSet bucket name h)
    modelMetadata :=
      alSet s.modelMetadata (modelKey provider name) (mkRegisteredMeta provider name o)
    nextHandle := nextH }

/-- `registerModel` (lines 103-128): use the supplied handle, else build one
via the provider's factory, else return without mutating anything. -/
def registerModel (s : RegistryState) (provider name : String)
    (o : RegisterOptions) : RegistryState :=
  match o.model with
  | some h => registerWith s provider name o h s.nextHandle
  | none =>
    if providerFactories.contains provider then
      registerWith s provider name o s.nextHandle (s.nextHandle + 1)
    else s

/-- `clearProvider` (lines 130-139): drop the provider's bucket and every
metadata key that starts with `` `${provider}::` ``. -/
def clearProvider (s : RegistryState) (provider : String) : RegistryState :=
  { s with
    allModels := alErase s.allModels provider
    modelMetadata :=
      alFilterKeys s.modelMetadata
        (fun key => !(jsStartsWith key (provider ++ "::"))) }

/-! ### Seed loading (lines 141-272) -/

/-- `ModelRegistration` (lines 64-70). -/
structure ModelRegistration where
  name : String
  displayName : Option String := none
  apiName : Option String := none
  isToolCallUnsupported : Option Bool := none
  isImageInputUnsupported : Option Bool := none
deriving DecidableEq, Repr

/-- `staticModelSeed` (lines 141-235). -/
def staticModelSeed : List (String × List ModelRegistration) :=
  [("openai",
    [{ name := "gpt-4.1" }, { name := "gpt-4.1-mini" }, { name := "o4-mini" },
     { name := "o3" }, { name := "gpt-5" }, { name := "gpt-5-mini" },
     { name := "gpt-5-nano" }]),
   ("google",
    [{ name := "gemini-2.5-flash-lite" }, { name := "gemini-2.5-flash" },
     { name := "gemini-2.5-pro" }]),
   ("anthropic",
    [{ name := "claude-sonnet-4-5", displayName := some "sonnet-4.5" },
     { name := "claude-opus-4-1", displayName := some "opus-4.1" }]),
   ("xai",
    [{ name := "grok-4-fast-non-reasoning", displayName := some "grok-4-fast" },
     { name := "grok-4" }, { name := "grok-3" }, { name := "grok-3-mini" }]),
   ("ollama",
    [{ name := "gemma3:1b" }, { name := "gemma3:4b" }, { name := "gemma3:12b" }]),
   ("groq",
    [{ name := "moonshotai/kimi-k2-instruct", displayName := some "kimi-k2-instruct",
       isImageInputUnsupported := some false },
     { name := "meta-llama/llama-4-scout-17b-16e-instruct",
       displayName := some "llama-4-scout-17b", isImageInputUnsupported := some false },
     { name := "openai/gpt-oss-20b", displayName := some "gpt-oss-20b",
       isImageInputUnsupported := some false },
     { name := "openai/gpt-oss-120b", displayName := some "gpt-oss-120b",
       isImageInputUnsupported := some false },
     { name := "qwen/qwen3-32b", displayName := some "qwen3-32b",
       isImageInputUnsupported := some false }]),
   ("openRouter",
    [{ name := "openai/gpt-oss-20b:free", displayName := some "gpt-oss-20b:free",
       isImageInputUnsupported := some false },
     { name := "qwen/qwen3-8b:free", displayName := some "qwen3-8b:free",
       isImageInputUnsupported := some false },
     { name := "qwen/qwen3-14b:free", displayName := some "qwen3-14b:free",
       isImageInputUnsupported := some false },
     { name := "qwen/qwen3-coder:free", displayName := some "qwen3-coder:free",
       isImageInputUnsupported := some false },
     { name := "deepseek/deepseek-r1-0528:free", displayName := some "deepseek-r1:free",
       isImageInputUnsupported := some false },
     { name := "deepseek/deepseek-chat-v3-0324:free", displayName := some "deepseek-v3:free",
       isImageInputUnsupported := some false },
     { name := "google/gemini-2.0-flash-exp:free",
       displayName := some "gemini-2.0-flash-exp:free",
       isImageInputUnsupported := some false }])]

/-- The options built by the static seed loop (lines 237-248): the
tool-call default is resolved eagerly by key lookup before the call. -/
def seedOptions (provider : String) (e : ModelRegistration) : RegisterOptions :=
  { displayName := e.displayName
    apiName := e.apiName
    isToolCallUnsupported :=
      some (e.isToolCallUnsupported.getD
        (fallbackToolUnsupportedKeys.contains (modelKey provider e.name)))
    isImageInputUnsupported := e.isImageInputUnsupported
    model := none }

/-- Register every static-seed entry (lines 237-248). -/
def seedStatic (s : RegistryState) : RegistryState :=
  staticModelSeed.foldl
    (fun st pe =>
      pe.2.foldl (fun st e => registerModel st pe.1 e.name (seedOptions pe.1 e)) st)
    s

/-- Modelled from the spec: one dynamically configured OpenAI-compatible
model (its handle is pre-built by `createOpenAICompatibleModels`, whose
source is not part of this repository snapshot); registration itself is
lines 263-272 of `models.ts`. -/
structure DynModel where
  provider : String
  name : String
  toolCallUnsupported : Bool
deriving DecidableEq, Repr

/-- Register the dynamically configured models (lines 263-272): pre-built
handle, display name equal to the raw name, image input forced supported. -/
def seedDynamic (dyn : List DynModel) (s : RegistryState) : RegistryState :=
  dyn.foldl
    (fun st d =>
      registerModel { st with nextHandle := st.nextHandle + 1 } d.provider d.name
        { displayName := some d.name
          isToolCallUnsupported := some d.toolCallUnsupported
          isImageInputUnsupported := some false
          model := some st.nextHandle })
    s

/-- The registry right after module initialisation. -/
def seedState (dyn : List DynModel) : RegistryState :=
  seedDynamic dyn (seedStatic { allModels := [], modelMetadata := [], nextHandle := 0 })

/-! ### A refresh round settling (lines 292-340) -/

/-- Outcome of one provider's live-listing fetch: a parsed model list, or
any raised error (network failure, non-2xx, malformed payload). -/
inductive FetchResult where
  | ok (models : List ModelRegistration)
  | err
deriving DecidableEq, Repr

/-- Keys of the `fetchers` table (lines 300-308), in insertion order. -/
def fetchProviders : List String :=
  ["openai", "google", "anthropic", "xai", "groq", "openRouter", "ollama"]

/-- The model list one provider contributes to a round (lines 310-320):
a failed credential check skips the fetch and contributes zero models; a
fetch error is caught and likewise contributes zero models. -/
def effModels (env : Env) (explicitKeys : List (String × Bool))
    (fo : List (String × FetchResult)) (provider : String) :
    List ModelRegistration :=
  if checkProviderAPIKey env explicitKeys provider then
    match alGet fo provider with
    | some (.ok ms) => ms
    | some .err => []
    | none => []
  else []

/-- Re-register one provider's returned models (lines 327-334). -/
def registerFetched (s : RegistryState) (provider : String)
    (ms : List ModelRegistration) : RegistryState :=
  ms.foldl
    (fun st e =>
      registerModel st provider e.name
        { displayName := e.displayName
          apiName := e.apiName
          isToolCallUnsupported := e.isToolCallUnsupported
          isImageInputUnsupported := e.isImageInputUnsupported
          model := none })
    s

/-- Apply one settled round to the catalog (lines 322-335): providers with a
non-empty result are cleared then repopulated, the rest stay untouched. -/
def settleRound (env : Env) (explicitKeys : List (String × Bool))
    (fo : List (String × FetchResult)) (s : RegistryState) : RegistryState :=
  (fetchProviders.map (fun p => (p, effModels env explicitKeys fo p))).foldl
    (fun st pr =>
      if pr.2.isEmpty then st else registerFetched (clearProvider st pr.1) pr.1 pr.2)
    s

/-! ### The resolver (lines 274-287 and 566-589) -/

/-- `ChatModel`: the symbolic (provider, model) reference. -/
structure ChatModel where
  provider : String
  model : String
deriving DecidableEq, Repr

/-- `fallbackModel` (lines 274-287): the catalogued `openai/gpt-4.1` handle
if present, else one freshly built via the openai factory and registered,
else a thrown fatal configuration error. -/
def fallbackModel (s : RegistryState) : RegistryState × Except String Nat :=
  match alGet ((alGet s.allModels "openai").getD []) "gpt-4.1" with
  | some h => (s, .ok h)
  | none =>
    if providerFactories.contains "openai" then
      let created := s.nextHandle
      (registerModel { s with nextHandle := s.nextHandle + 1 } "openai" "gpt-4.1"
        { model := some created }, .ok created)
    else (s, .error "Fallback model is not available")

/-- `customModelProvider.getModel` (lines 570-585). -/
def getModel (s : RegistryState) (ref : Option ChatModel) :
    RegistryState × Except String Nat :=
  match ref with
  | none => fallbackModel s
  | some m =>
    match alGet ((alGet s.allModels m.provider).getD []) m.model with
    | some h => (s, .ok h)
    | none =>
      if providerFactories.contains m.provider then
        let built := s.nextHandle
        (registerModel { s with nextHandle := s.nextHandle + 1 } m.provider m.model
          { model := some built }, .ok built)
      else fallbackModel s

/-! ### The catalog summary (lines 342-374) -/

/-- One model row of the summary. -/
structure ModelSummary where
  name : String
  displayName : Option String
  isToolCallUnsupported : Bool
  isImageInputUnsupported : Bool
deriving DecidableEq, Repr

/-- One provider block of the summary. -/
structure ProviderSummary where
  provider : String
  hasAPIKey : Bool
  models : List ModelSummary
deriving DecidableEq, Repr

/-- The label a row is sorted by (line 361-362). -/
def summaryLabel (m : ModelSummary) : String := m.displayName.getD m.name

/-- `localeCompare(..., { sensitivity: "base" })`, modelled as
case-insensitive lexicographic order. -/
def labelLe (a b : ModelSummary) : Bool :=
  decide ((summaryLabel a).toLower ≤ (summaryLabel b).toLower)

/-- `buildModelsInfo` (lines 342-374). -/
def buildModelsInfo (env : Env) (explicitKeys : List (String × Bool))
    (s : RegistryState) : List ProviderSummary :=
  (s.allModels.map (fun pe =>
    { provider := pe.1
      hasAPIKey := checkProviderAPIKey env explicitKeys pe.1
      models :=
        (pe.2.map (fun me =>
          let meta := alGet s.modelMetadata (modelKey pe.1 me.1)
          { name := me.1
            displayName :=
              match meta with
              | some mm =>
                match mm.displayName with
                | some d => if d = "" then none else if d = me.1 then none else some d
                | none => none
              | none => none
            isToolCallUnsupported :=
              (meta.map (fun mm => mm.isToolCallUnsupported)).getD false
            isImageInputUnsupported :=
              (meta.map (fun mm => mm.isImageInputUnsupported)).getD
                (!(imageInputSupportedProviders.contains pe.1)) })).mergeSort
          labelLe })).mergeSort
    (fun a b => decide (a.provider ≤ b.provider))

/-! ### The refresh coordinator as an event-loop transition system

`refreshModels` (lines 289-340) runs on a single-threaded event loop, so
its execution decomposes into atomic segments separated by `await`:

* the entry segment (throttle check, in-flight check, creation of the
  shared promise — during which the per-provider key checks run and the
  fetches are issued) ending at `await currentRefresh`;
* the settling of the round's `Promise.all` (results applied to the
  catalog, `lastRefreshAt = Date.now()`);
* the starter's continuation (`currentRefresh = null`);
* a joiner's continuation after the shared promise it returned resolves.
-/

/-- Where one logical caller of `refresh` is in its execution. -/
inductive CallerPc where
  | entry (force : Bool)
  | starterWait (rid : Nat)
  | joining (rid : Nat)
  | done
deriving DecidableEq, Repr

/-- The process-wide state: the registry, the refresh singleton
(`lastRefreshAt`, `currentRefresh` as a round id), the bookkeeping of
started/settled rounds, the callers, and the clock. -/
structure SysState where
  reg : RegistryState
  env : Env
  explicitKeys : List (String × Bool)
  lastRefreshAt : Nat
  current : Option Nat
  nextRid : Nat
  started : List Nat
  finished : List Nat
  callers : List CallerPc
  now : Nat
deriving DecidableEq, Repr

/-- `1000 * 60 * 5` (line 293). -/
def refreshTTL : Nat := 1000 * 60 * 5

/-- One atomic event-loop step. -/
inductive StepLabel where
  | call (i : Nat)
  | settle (rid : Nat) (fo : List (String × FetchResult))
  | resume (i : Nat)
  | joinFinish (i : Nat)
  | tick (d : Nat)

/-- The transition function; a label whose guard fails is a stutter. -/
def step (s : SysState) (l : StepLabel) : SysState :=
  match l with
  | .tick d => { s with now := s.now + d }
  | .call i =>
    match s.callers[i]? with
    | some (.entry force) =>
      if force = false ∧ s.now - s.lastRefreshAt < refreshTTL then
        { s with callers := s.callers.set i .done }
      else
        match s.current with
        | some r => { s with callers := s.callers.set i (.joining r) }
        | none =>
          { s with
            current := some s.nextRid
            nextRid := s.nextRid + 1
            started := s.started ++ [s.nextRid]
            callers := s.callers.set i (.starterWait s.nextRid) }
    | _ => s
  | .settle rid fo =>
    if rid ∈ s.started ∧ rid ∉ s.finished then
      { s with
        reg := settleRound s.env s.explicitKeys fo s.reg
        lastRefreshAt := s.now
        finished := s.finished ++ [rid] }
    else s
  | .resume i =>
    match s.callers[i]? with
    | some (.starterWait r) =>
      if r ∈ s.finished then
        { s with current := none, callers := s.callers.set i .done }
      else s
    | _ => s
  | .joinFinish i =>
    match s.callers[i]? with
    | some (.joining r) =>
      if r ∈ s.finished then { s with callers := s.callers.set i .done }
      else s
    | _ => s

/-- Process start (line 289-290: `lastRefreshAt = 0`, `currentRefresh = null`),
with a chosen set of pending callers. -/
def initSys (env : Env) (explicitKeys : List (String × Bool))
    (reg0 : RegistryState) (forces : List Bool) (t0 : Nat) : SysState :=
  { reg := reg0
    env := env
    explicitKeys := explicitKeys
    lastRefreshAt := 0
    current := none
    nextRid := 0
    started := []
    finished := []
    callers := forces.map .entry
    now := t0 }

/-- Run a trace of event-loop steps from process start. -/
def reach (env : Env) (explicitKeys : List (String × Bool))
    (reg0 : RegistryState) (forces : List Bool) (t0 : Nat)
    (tr : List StepLabel) : SysState :=
  tr.foldl step (initSys env explicitKeys reg0 forces t0)

/-! ### Registry-level reachability -/

/-- The operations that touch the catalog/metadata stores after seeding. -/
inductive RegOp where
  | register (provider name : String) (o : RegisterOptions)
  | clear (provider : String)
  | settleR (fo : List (String × FetchResult))
  | resolve (ref : Option ChatModel)

/-- Apply one registry operation. -/
def applyRegOp (env : Env) (explicitKeys : List (String × Bool))
    (s : RegistryState) (op : RegOp) : RegistryState :=
  match op with
  | .register p n o => registerModel s p n o
  | .clear p => clearProvider s p
  | .settleR fo => settleRound env explicitKeys fo s
  | .resolve ref => (getModel s ref).1

/-- A registry state reached from the seeded start by a run of operations. -/
def regReach (env : Env) (explicitKeys : List (String × Bool))
    (dyn : List DynModel) (ops : List RegOp) : RegistryState :=
  ops.foldl (applyRegOp env explicitKeys) (seedState dyn)

/-! ### Further association-list lemmas -/

/-- Number of entries carrying a key. -/
def countKey {α : Type} (l : List (String × α)) (k : String) : Nat :=
  (l.filter (fun e => decide (e.1 = k))).length

/-- The keys of an association list, in order. -/
def alKeys {α : Type} (l : List (String × α)) : List String := l.map Prod.fst

/-- No two entries share a key. -/
def alNodupKeys {α : Type} (l : List (String × α)) : Prop := (alKeys l).Nodup

theorem alHasKey_iff_mem {α : Type} (l : List (String × α)) (k : String) :
    alHasKey l k = true ↔ k ∈ alKeys l := by
  induction l with
  | nil => simp [alHasKey, alKeys]
  | cons e l ih =>
    rw [alHasKey, alKeys, List.map_cons, List.mem_cons]
    simp only [Bool.or_eq_true, decide_eq_true_eq, ih, alKeys]
    constructor
    · rintro (h | h)
      · exact Or.inl h.symm
      · exact Or.inr h
    · rintro (h | h)
      · exact Or.inl h.symm
      · exact Or.inr h

theorem alUpdate_of_not_mem {α : Type} (l : List (String × α)) (k : String)
    (v : α) (hk : k ∉ alKeys l) : alUpdate l k v = l := by
  induction l with
  | nil => rfl
  | cons e l ih =>
    rw [alKeys, List.map_cons, List.mem_cons] at hk
    rw [alUpdate, if_neg (fun h => hk (Or.inl h.symm)),
      ih (fun h => hk (Or.inr h))]

theorem countKey_eq_zero_of_not_mem {α : Type} (l : List (String × α))
    (k : String) (hk : k ∉ alKeys l) : countKey l k = 0 := by
  induction l with
  | nil => rfl
  | cons e l ih =>
    rw [alKeys, List.map_cons, List.mem_cons] at hk
    rw [countKey, List.filter_cons,
      if_neg (by simp only [decide_eq_true_eq]; exact fun h => hk (Or.inl h.symm))]
    exact ih (fun h => hk (Or.inr h))

theorem countKey_alUpdate {α : Type} (l : List (String × α)) (k : String)
    (v : α) (hnd : alNodupKeys l) :
    countKey (alUpdate l k v) k = if alHasKey l k = true then 1 else 0 := by
  induction l with
  | nil => rfl
  | cons e l ih =>
    rw [alNodupKeys, alKeys, List.map_cons, List.nodup_cons] at hnd
    by_cases h : e.1 = k
    · rw [alUpdate, if_pos h, alHasKey, countKey, List.filter_cons,
        if_pos (by simp)]
      rw [alUpdate_of_not_mem l k v (h ▸ hnd.1), List.length_cons,
        show (List.filter (fun e => decide (e.1 = k)) l).length = countKey l k from rfl,
        countKey_eq_zero_of_not_mem l k (h ▸ hnd.1)]
      simp [h]
    · rw [alUpdate, if_neg h, countKey, List.filter_cons,
        if_neg (by simpa using h), alHasKey,
        show (List.filter (fun e => decide (e.1 = k)) (alUpdate l k v)).length
          = countKey (alUpdate l k v) k from rfl, ih hnd.2]
      simp [h]

theorem countKey_append {α : Type} (l1 l2 : List (String × α)) (k : String) :
    countKey (l1 ++ l2) k = countKey l1 k + countKey l2 k := by
  rw [countKey, countKey, countKey, List.filter_append, List.length_append]

theorem countKey_alSet_self {α : Type} (l : List (String × α)) (k : String)
    (v : α) (hnd : alNodupKeys l) : countKey (alSet l k v) k = 1 := by
  rw [alSet]
  by_cases hk : alHasKey l k
  · rw [if_pos hk, countKey_alUpdate l k v hnd, if_pos hk]
  · rw [if_neg hk, countKey_append,
      countKey_eq_zero_of_not_mem l k
        (fun h => hk ((alHasKey_iff_mem l k).mpr h))]
    simp [countKey]

theorem alKeys_alUpdate {α : Type} (l : List (String × α)) (k : String)
    (v : α) : alKeys (alUpdate l k v) = alKeys l := by
  induction l with
  | nil => rfl
  | cons e l ih =>
    rw [alUpdate, alKeys, List.map_cons, alKeys, List.map_cons]
    have ht : List.map Prod.fst (alUpdate l k v) = List.map Prod.fst l := ih
    by_cases h : e.1 = k
    · rw [if_pos h, ht, h]
    · rw [if_neg h, ht]

theorem alNodupKeys_alSet {α : Type} (l : List (String × α)) (k : String)
    (v : α) (hnd : alNodupKeys l) : alNodupKeys (alSet l k v) := by
  rw [alSet]
  by_cases hk : alHasKey l k
  · rw [if_pos hk, alNodupKeys, alKeys_alUpdate]
    exact hnd
  · rw [if_neg hk, alNodupKeys, alKeys, List.map_append]
    refine List.Nodup.append hnd (by simp [alKeys]) ?_
    intro a ha hb
    simp only [alKeys, List.map_cons, List.map_nil, List.mem_singleton] at hb
    exact hk ((alHasKey_iff_mem l k).mpr (hb ▸ ha))

theorem mem_alSet {α : Type} (l : List (String × α)) (k : String) (v : α)
    (e : String × α) (he : e ∈ alSet l k v) : e = (k, v) ∨ e ∈ l := by
  rw [alSet] at he
  by_cases hk : alHasKey l k
  · rw [if_pos hk] at he
    clear hk
    induction l with
    | nil => exact Or.inr (by simpa [alUpdate] using he)
    | cons e' l ih =>
      rw [alUpdate, List.mem_cons] at he
      rcases he with he | he
      · by_cases h : e'.1 = k
        · rw [if_pos h] at he
          exact Or.inl he
        · rw [if_neg h] at he
          subst he
          exact Or.inr (List.mem_cons_self _ _)
      · rcases ih he with h | h
        · exact Or.inl h
        · exact Or.inr (List.mem_cons_of_mem _ h)
  · rw [if_neg hk, List.mem_append] at he
    rcases he with he | he
    · exact Or.inr he
    · exact Or.inl (by simpa using he)

theorem mem_alErase {α : Type} (l : List (String × α)) (k : String)
    (e : String × α) (he : e ∈ alErase l k) : e ∈ l ∧ e.1 ≠ k := by
  induction l with
  | nil => simp [alErase] at he
  | cons e' l ih =>
    rw [alErase] at he
    by_cases h : e'.1 = k
    · rw [if_pos h] at he
      exact ⟨List.mem_cons_of_mem _ (ih he).1, (ih he).2⟩
    · rw [if_neg h, List.mem_cons] at he
      rcases he with he | he
      · subst he
        exact ⟨List.mem_cons_self _ _, h⟩
      · exact ⟨List.mem_cons_of_mem _ (ih he).1, (ih he).2⟩

theorem mem_of_alGet {α : Type} (l : List (String × α)) (k : String) (v : α)
    (h : alGet l k = some v) : (k, v) ∈ l := by
  induction l with
  | nil => simp [alGet] at h
  | cons e l ih =>
    rw [alGet] at h
    by_cases h2 : e.1 = k
    · rw [if_pos h2] at h
      rcases e with ⟨ek, ev⟩
      cases h2
      cases h
      exact List.mem_cons_self _ _
    · rw [if_neg h2] at h
      exact List.mem_cons_of_mem _ (ih h)

theorem isSome_alGet_alSet {α : Type} (l : List (String × α)) (k : String)
    (v : α) (k' : String) (h : (alGet l k').isSome = true) :
    (alGet (alSet l k v) k').isSome = true := by
  by_cases hk : k' = k
  · rw [hk, alGet_alSet_self]
    rfl
  · rw [alGet_alSet_ne l k v k' hk]
    exact h

theorem alSet_ne_nil {α : Type} (l : List (String × α)) (k : String) (v : α) :
    alSet l k v ≠ [] := by
  rw [alSet]
  by_cases hk : alHasKey l k
  · rw [if_pos hk]
    cases l with
    | nil => simp [alHasKey] at hk
    | cons e l => simp [alUpdate]
  · rw [if_neg hk]
    simp

/-! ### Claims C7 and C8: registration semantics -/

/-- C7: when the capability flags are not explicitly supplied and the
registration stores a handle, the stored metadata has
`isToolCallUnsupported` true exactly when the key is in the fixed
deny-list, and `isImageInputUnsupported` true exactly when the provider is
outside the fixed image-input allow-list. -/
theorem registerModel_default_capability_flags (s : RegistryState)
    (p n : String) (o : RegisterOptions)
    (htc : o.isToolCallUnsupported = none)
    (hii : o.isImageInputUnsupported = none)
    (hreg : o.model.isSome = true ∨ providerFactories.contains p = true) :
    alGet (registerModel s p n o).modelMetadata (modelKey p n) =
      some { displayName := o.displayName
             isToolCallUnsupported :=
               fallbackToolUnsupportedKeys.contains (modelKey p n)
             isImageInputUnsupported :=
               !(imageInputSupportedProviders.contains p) } := by
  have hmeta : mkRegisteredMeta p n o =
      { displayName := o.displayName
        isToolCallUnsupported :=
          fallbackToolUnsupportedKeys.contains (modelKey p n)
        isImageInputUnsupported :=
          !(imageInputSupportedProviders.contains p) } := by
    rw [mkRegisteredMeta, htc, hii]
    rfl
  cases hm : o.model with
  | some h0 =>
    simp only [registerModel, hm, registerWith, hmeta]
    exact alGet_alSet_self _ _ _
  | none =>
    rcases hreg with h | h
    · rw [hm] at h
      simp at h
    · simp only [registerModel, hm, if_pos h, registerWith, hmeta]
      exact alGet_alSet_self _ _ _

/-- C7 witness. -/
theorem registerModel_default_capability_flags_witness :
    alGet (registerModel { allModels := [], modelMetadata := [], nextHandle := 0 }
        "ollama" "gemma3:1b" {}).modelMetadata (modelKey "ollama" "gemma3:1b") =
      some { displayName := none
             isToolCallUnsupported :=
               fallbackToolUnsupportedKeys.contains (modelKey "ollama" "gemma3:1b")
             isImageInputUnsupported :=
               !(imageInputSupportedProviders.contains "ollama") } :=
  registerModel_default_capability_flags
    { allModels := [], modelMetadata := [], nextHandle := 0 }
    "ollama" "gemma3:1b" {} rfl rfl (Or.inr (by decide))

/-- C8: registering the same (provider, model) key twice with different
handles leaves exactly one catalog entry under the key, holding the second
handle, and the metadata record is fully replaced by the second
registration's record. -/
theorem registerModel_overwrites_same_key (s : RegistryState) (p n : String)
    (o1 o2 : RegisterOptions) (h1 h2 : Nat)
    (hm1 : o1.model = some h1) (hm2 : o2.model = some h2) (hne : h1 ≠ h2)
    (hb : alNodupKeys ((alGet s.allModels p).getD []))
    (hmm : alNodupKeys s.modelMetadata) :
    countKey ((alGet (registerModel (registerModel s p n o1) p n o2).allModels
        p).getD []) n = 1 ∧
    alGet ((alGet (registerModel (registerModel s p n o1) p n o2).allModels
        p).getD []) n = some h2 ∧
    countKey (registerModel (registerModel s p n o1) p n o2).modelMetadata
        (modelKey p n) = 1 ∧
    alGet (registerModel (registerModel s p n o1) p n o2).modelMetadata
        (modelKey p n) = some (mkRegisteredMeta p n o2) := by
  simp only [registerModel, hm1, hm2, registerWith, alGet_alSet_self,
    Option.getD_some]
  refine ⟨?_, ?_, ?_, ?_⟩ <;>
    first
      | exact countKey_alSet_self _ _ _ (alNodupKeys_alSet _ _ _ hb)
      | exact countKey_alSet_self _ _ _ (alNodupKeys_alSet _ _ _ hmm)
      | exact alGet_alSet_self _ _ _
      | trivial

/-- C8 witness. -/
theorem registerModel_overwrites_same_key_witness :
    countKey ((alGet (registerModel (registerModel
        { allModels := [], modelMetadata := [], nextHandle := 0 }
        "p" "n" { model := some 1 }) "p" "n" { model := some 2 }).allModels
        "p").getD []) "n" = 1 ∧
    alGet ((alGet (registerModel (registerModel
        { allModels := [], modelMetadata := [], nextHandle := 0 }
        "p" "n" { model := some 1 }) "p" "n" { model := some 2 }).allModels
        "p").getD []) "n" = some 2 ∧
    countKey (registerModel (registerModel
        { allModels := [], modelMetadata := [], nextHandle := 0 }
        "p" "n" { model := some 1 }) "p" "n" { model := some 2 }).modelMetadata
        (modelKey "p" "n") = 1 ∧
    alGet (registerModel (registerModel
        { allModels := [], modelMetadata := [], nextHandle := 0 }
        "p" "n" { model := some 1 }) "p" "n" { model := some 2 }).modelMetadata
        (modelKey "p" "n") = some (mkRegisteredMeta "p" "n" { model := some 2 }) :=
  registerModel_overwrites_same_key
    { allModels := [], modelMetadata := [], nextHandle := 0 }
    "p" "n" { model := some 1 } { model := some 2 } 1 2 rfl rfl
    (by decide) List.Pairwise.nil List.Pairwise.nil

/-! ### Claim C6: resolver case order -/

/-- C6: `getModel` resolves in this case order: no reference → fallback
model; catalogued reference → the stored handle with no state change (so
repeated calls return the same instance); uncatalogued reference with a
factory → a freshly built handle, registered as a side effect; any other
case → the fallback model, which is the catalogued openai/gpt-4.1 handle
if present, else a handle freshly built and registered via the openai
factory (the fatal-error branch being unreachable since openai always has
a factory). -/
theorem getModel_resolution_order (s : RegistryState) (p m : String) (h : Nat) :
    (getModel s none = fallbackModel s) ∧
    (alGet ((alGet s.allModels p).getD []) m = some h →
      getModel s (some ⟨p, m⟩) = (s, .ok h)) ∧
    (alGet ((alGet s.allModels p).getD []) m = none →
      providerFactories.contains p = true →
      getModel s (some ⟨p, m⟩) =
        (registerModel { s with nextHandle := s.nextHandle + 1 } p m
          { model := some s.nextHandle }, .ok s.nextHandle) ∧
      alGet ((alGet (getModel s (some ⟨p, m⟩)).1.allModels p).getD []) m =
        some s.nextHandle) ∧
    (alGet ((alGet s.allModels p).getD []) m = none →
      providerFactories.contains p = false →
      getModel s (some ⟨p, m⟩) = fallbackModel s) ∧
    (alGet ((alGet s.allModels "openai").getD []) "gpt-4.1" = some h →
      fallbackModel s = (s, .ok h)) ∧
    (alGet ((alGet s.allModels "openai").getD []) "gpt-4.1" = none →
      fallbackModel s =
        (registerModel { s with nextHandle := s.nextHandle + 1 } "openai" "gpt-4.1"
          { model := some s.nextHandle }, .ok s.nextHandle)) := by
  refine ⟨rfl, ?_, ?_, ?_, ?_, ?_⟩
  · intro hl
    simp only [getModel, hl]
  · intro hl hf
    constructor
    · simp only [getModel, hl, if_pos hf]
    · simp only [getModel, hl, if_pos hf, registerModel, registerWith,
        alGet_alSet_self, Option.getD_some]
  · intro hl hf
    simp only [getModel, hl, hf]
    simp
  · intro hl
    simp only [fallbackModel, hl]
  · intro hl
    simp only [fallbackModel, hl, if_pos (show providerFactories.contains "openai" = true by decide)]

/-- C6 witness: resolve a catalogued key in the seeded registry. -/
theorem getModel_resolution_order_witness :
    getModel (seedState []) (some ⟨"openai", "gpt-4.1"⟩) = (seedState [], .ok 0) :=
  (getModel_resolution_order (seedState []) "openai" "gpt-4.1" 0).2.1 (by decide)

/-! ### Claim C4: per-provider failure isolation during a refresh -/

/-- Replace every provider fetch error by an empty success. -/
def scrubErrors (fo : List (String × FetchResult)) : List (String × FetchResult) :=
  fo.map (fun e => (e.1, match e.2 with | .err => .ok [] | x => x))

theorem alGet_scrubErrors (fo : List (String × FetchResult)) (p : String) :
    alGet (scrubErrors fo) p =
      match alGet fo p with
      | some .err => some (.ok [])
      | x => x := by
  induction fo with
  | nil => rfl
  | cons e fo ih =>
    by_cases h : e.1 = p
    · cases e2 : e.2 <;> simp [scrubErrors, alGet, h, e2]
    · simpa [scrubErrors, alGet, h] using ih

theorem effModels_scrubErrors (env : Env) (ek : List (String × Bool))
    (fo : List (String × FetchResult)) (p : String) :
    effModels env ek (scrubErrors fo) p = effModels env ek fo p := by
  rw [effModels, effModels, alGet_scrubErrors]
  cases alGet fo p with
  | none => rfl
  | some r => cases r <;> rfl

/-- C4: a provider whose credential check fails contributes zero models
without its fetch outcome being consulted; a provider whose fetch raised
an error contributes zero models; and the round as a whole is the same
total state transformation as if every error had been an empty success —
it never fails because of one provider's failure. -/
theorem refresh_provider_failure_isolation (env : Env)
    (ek : List (String × Bool)) (fo : List (String × FetchResult))
    (p : String) (s : RegistryState) :
    (checkProviderAPIKey env ek p = false →
      effModels env ek fo p = [] ∧
      ∀ fo2, effModels env ek fo2 p = effModels env ek fo p) ∧
    (alGet fo p = some .err → effModels env ek fo p = []) ∧
    (settleRound env ek (scrubErrors fo) s = settleRound env ek fo s) := by
  refine ⟨?_, ?_, ?_⟩
  · intro hc
    constructor
    · rw [effModels, hc]
      simp
    · intro fo2
      rw [effModels, effModels, hc]
      simp
  · intro he
    rw [effModels, he]
    cases checkProviderAPIKey env ek p <;> rfl
  · rw [settleRound, settleRound]
    have : (fetchProviders.map (fun p => (p, effModels env ek (scrubErrors fo) p))) =
        (fetchProviders.map (fun p => (p, effModels env ek fo p))) := by
      apply List.map_congr_left
      intro q _
      rw [effModels_scrubErrors]
    rw [this]

/-- C4 witness: with no credentials, openai contributes nothing. -/
theorem refresh_provider_failure_isolation_witness :
    effModels {} [] [("openai", .ok [{ name := "x" }])] "openai" = [] :=
  ((refresh_provider_failure_isolation {} [] [("openai", .ok [{ name := "x" }])]
    "openai" { allModels := [], modelMetadata := [], nextHandle := 0 }).1
    (by decide)).1

/-! ### Claim C2: the TTL throttle and the force flag -/

/-- C2: a non-forced call made less than five minutes after the last
recorded completion returns immediately — the only change is that the
caller is done; nothing of the registry, catalog, metadata or refresh
state moves.  A forced call starts a new round when none is in flight,
and joins the in-flight round otherwise (never starting a second). -/
theorem refresh_throttle_and_force (s : SysState) (i : Nat) :
    (s.callers[i]? = some (.entry false) →
      s.now - s.lastRefreshAt < refreshTTL →
      step s (.call i) = { s with callers := s.callers.set i .done }) ∧
    (s.callers[i]? = some (.entry true) → s.current = none →
      step s (.call i) =
        { s with
          current := some s.nextRid
          nextRid := s.nextRid + 1
          started := s.started ++ [s.nextRid]
          callers := s.callers.set i (.starterWait s.nextRid) }) ∧
    (∀ r, s.callers[i]? = some (.entry true) → s.current = some r →
      step s (.call i) = { s with callers := s.callers.set i (.joining r) }) := by
  refine ⟨?_, ?_, ?_⟩
  · intro hc ht
    simp only [step, hc]
    rw [if_pos ⟨trivial, ht⟩]
  · intro hc hcur
    simp only [step, hc, hcur]
    rw [if_neg (by simp)]
  · intro r hc hcur
    simp only [step, hc, hcur]
    rw [if_neg (by simp)]

/-- C2 witness: in a freshly started process one round has completed at
time 1000000; 1 second later a throttled caller returns immediately. -/
theorem refresh_throttle_and_force_witness :
    step (reach {} [] (seedState []) [true, false] 1000000
        [.call 0, .settle 0 [], .resume 0, .tick 1000]) (.call 1) =
      { (reach {} [] (seedState []) [true, false] 1000000
          [.call 0, .settle 0 [], .resume 0, .tick 1000]) with
        callers := (reach {} [] (seedState []) [true, false] 1000000
          [.call 0, .settle 0 [], .resume 0, .tick 1000]).callers.set 1 .done } :=
  (refresh_throttle_and_force
    (reach {} [] (seedState []) [true, false] 1000000
      [.call 0, .settle 0 [], .resume 0, .tick 1000]) 1).1
    (by decide) (by decide)

/-! ### Claim C5: completion always clears the in-flight marker -/

/-- C5: whenever a round settles, the last-refresh timestamp is set to the
current time regardless of the per-provider outcomes and the round is
recorded finished; the starter's continuation then clears the in-flight
marker and completes the starter; and from any state with no in-flight
marker a forced call can start a new round.  (In the embedded semantics
the refresh body is total — every provider error is caught — so there is
no failing completion to consider.) -/
theorem refresh_completion_clears_marker (s : SysState) :
    (∀ rid fo, rid ∈ s.started → rid ∉ s.finished →
      (step s (.settle rid fo)).lastRefreshAt = s.now ∧
      rid ∈ (step s (.settle rid fo)).finished ∧
      (step s (.settle rid fo)).current = s.current) ∧
    (∀ i r, s.callers[i]? = some (.starterWait r) → r ∈ s.finished →
      step s (.resume i) =
        { s with current := none, callers := s.callers.set i .done }) ∧
    (∀ j, s.current = none → s.callers[j]? = some (.entry true) →
      (step s (.call j)).started = s.started ++ [s.nextRid] ∧
      (step s (.call j)).current = some s.nextRid) := by
  refine ⟨?_, ?_, ?_⟩
  · intro rid fo hs hf
    simp only [step, if_pos (And.intro hs hf)]
    simp
  · intro i r hc hf
    simp only [step, hc, if_pos hf]
  · intro j hcur hc
    simp only [step, hc, hcur]
    rw [if_neg (by simp)]
    exact ⟨rfl, rfl⟩

/-- C5 witness: a settled round stamps the clock; the starter's resume
clears the marker; a later forced call starts round 1. -/
theorem refresh_completion_clears_marker_witness :
    (step (reach {} [] (seedState []) [true] 7 [.call 0]) (.settle 0 [])).lastRefreshAt = 7 ∧
    (step (reach {} [] (seedState []) [true] 7 [.call 0, .settle 0 []]) (.resume 0)).current = none ∧
    (step (reach {} [] (seedState []) [true, true] 7 [.call 0, .settle 0 [], .resume 0])
        (.call 1)).current = some 1 :=
  ⟨((refresh_completion_clears_marker
      (reach {} [] (seedState []) [true] 7 [.call 0])).1 0 [] (by decide) (by decide)).1,
   by
    rw [(refresh_completion_clears_marker
      (reach {} [] (seedState []) [true] 7 [.call 0, .settle 0 []])).2.1 0 0
      (by decide) (by decide)],
   ((refresh_completion_clears_marker
      (reach {} [] (seedState []) [true, true] 7 [.call 0, .settle 0 [], .resume 0])).2.2 1
      (by decide) (by decide)).2⟩

/-! ### Claim C10: every catalogued provider has at least one model -/

/-- Every provider bucket present in the catalog is non-empty. -/
def BucketsNonEmpty (s : RegistryState) : Prop :=
  ∀ pe ∈ s.allModels, pe.2 ≠ []

theorem bucketsNonEmpty_registerWith (s : RegistryState) (p n : String)
    (o : RegisterOptions) (h nh : Nat) (hs : BucketsNonEmpty s) :
    BucketsNonEmpty (registerWith s p n o h nh) := by
  intro pe hpe
  rcases mem_alSet _ _ _ _ hpe with he | he
  · rw [he]
    exact alSet_ne_nil _ _ _
  · exact hs pe he

theorem bucketsNonEmpty_registerModel (s : RegistryState) (p n : String)
    (o : RegisterOptions) (hs : BucketsNonEmpty s) :
    BucketsNonEmpty (registerModel s p n o) := by
  rw [registerModel]
  cases o.model with
  | some h => exact bucketsNonEmpty_registerWith s p n o h s.nextHandle hs
  | none =>
    by_cases hf : providerFactories.contains p = true
    · rw [if_pos hf]
      exact bucketsNonEmpty_registerWith s p n o s.nextHandle (s.nextHandle + 1) hs
    · rw [if_neg hf]
      exact hs

theorem bucketsNonEmpty_clearProvider (s : RegistryState) (p : String)
    (hs : BucketsNonEmpty s) : BucketsNonEmpty (clearProvider s p) :=
  fun pe hpe => hs pe (mem_alErase _ _ _ hpe).1

theorem bucketsNonEmpty_registerFetched (s : RegistryState) (p : String)
    (ms : List ModelRegistration) (hs : BucketsNonEmpty s) :
    BucketsNonEmpty (registerFetched s p ms) := by
  induction ms generalizing s with
  | nil => exact hs
  | cons e ms ih =>
    exact ih _ (bucketsNonEmpty_registerModel _ _ _ _ hs)

theorem bucketsNonEmpty_settleFold (rs : List (String × List ModelRegistration))
    (s : RegistryState) (hs : BucketsNonEmpty s) :
    BucketsNonEmpty (rs.foldl
      (fun st pr =>
        if pr.2.isEmpty then st
        else registerFetched (clearProvider st pr.1) pr.1 pr.2) s) := by
  induction rs generalizing s with
  | nil => exact hs
  | cons pr rs ih =>
    rw [List.foldl_cons]
    by_cases he : pr.2.isEmpty
    · rw [if_pos he]
      exact ih _ hs
    · rw [if_neg he]
      exact ih _ (bucketsNonEmpty_registerFetched _ _ _
        (bucketsNonEmpty_clearProvider _ _ hs))

theorem bucketsNonEmpty_settleRound (env : Env) (ek : List (String × Bool))
    (fo : List (String × FetchResult)) (s : RegistryState)
    (hs : BucketsNonEmpty s) : BucketsNonEmpty (settleRound env ek fo s) :=
  bucketsNonEmpty_settleFold _ s hs

theorem bucketsNonEmpty_fallbackModel (s : RegistryState)
    (hs : BucketsNonEmpty s) : BucketsNonEmpty (fallbackModel s).1 := by
  rw [fallbackModel]
  cases hl : alGet ((alGet s.allModels "openai").getD []) "gpt-4.1" with
  | some h => exact hs
  | none =>
    rw [if_pos (by decide : providerFactories.contains "openai" = true)]
    exact bucketsNonEmpty_registerModel _ _ _ _ hs

theorem bucketsNonEmpty_getModel (s : RegistryState) (ref : Option ChatModel)
    (hs : BucketsNonEmpty s) : BucketsNonEmpty (getModel s ref).1 := by
  cases ref with
  | none => exact bucketsNonEmpty_fallbackModel s hs
  | some m =>
    cases hl : alGet ((alGet s.allModels m.provider).getD []) m.model with
    | some h => simpa [getModel, hl] using hs
    | none =>
      by_cases hf : providerFactories.contains m.provider = true
      · simp only [getModel, hl, if_pos hf]
        exact bucketsNonEmpty_registerModel _ _ _ _ hs
      · simp only [getModel, hl, if_neg hf]
        exact bucketsNonEmpty_fallbackModel s hs

theorem bucketsNonEmpty_seedDynamic (dyn : List DynModel) (s : RegistryState)
    (hs : BucketsNonEmpty s) : BucketsNonEmpty (seedDynamic dyn s) := by
  rw [seedDynamic]
  induction dyn generalizing s with
  | nil => exact hs
  | cons d dyn ih =>
    rw [List.foldl_cons]
    exact ih _ (bucketsNonEmpty_registerModel _ _ _ _ hs)

theorem bucketsNonEmpty_seedState (dyn : List DynModel) :
    BucketsNonEmpty (seedState dyn) := by
  have hbase : ∀ pe ∈ (seedStatic
      { allModels := [], modelMetadata := [], nextHandle := 0 }).allModels,
      pe.2 ≠ [] := by decide
  exact bucketsNonEmpty_seedDynamic dyn _ hbase

theorem bucketsNonEmpty_applyRegOp (env : Env) (ek : List (String × Bool))
    (s : RegistryState) (op : RegOp) (hs : BucketsNonEmpty s) :
    BucketsNonEmpty (applyRegOp env ek s op) := by
  cases op with
  | register p n o => exact bucketsNonEmpty_registerModel _ _ _ _ hs
  | clear p => exact bucketsNonEmpty_clearProvider _ _ hs
  | settleR fo => exact bucketsNonEmpty_settleRound _ _ _ _ hs
  | resolve ref => exact bucketsNonEmpty_getModel _ _ hs

/-- C10: in every reachable registry state every provider key present in
the catalog maps to a non-empty model bucket (registerModel creates a
bucket only together with an entry; clearProvider removes whole buckets),
and consequently the catalog summary never lists a provider with zero
models. -/
theorem catalog_providers_never_empty (env : Env) (ek : List (String × Bool))
    (dyn : List DynModel) (ops : List RegOp) :
    BucketsNonEmpty (regReach env ek dyn ops) ∧
    ∀ e ∈ buildModelsInfo env ek (regReach env ek dyn ops), e.models ≠ [] := by
  have hfold : ∀ (l : List RegOp) (s : RegistryState), BucketsNonEmpty s →
      BucketsNonEmpty (l.foldl (applyRegOp env ek) s) := by
    intro l
    induction l with
    | nil => exact fun s hs => hs
    | cons op l ih =>
      intro s hs
      rw [List.foldl_cons]
      exact ih _ (bucketsNonEmpty_applyRegOp env ek s op hs)
  have hinv : BucketsNonEmpty (regReach env ek dyn ops) :=
    hfold ops _ (bucketsNonEmpty_seedState dyn)
  refine ⟨hinv, ?_⟩
  intro e he
  rw [buildModelsInfo, List.mem_mergeSort] at he
  obtain ⟨pe, hpe, rfl⟩ := List.mem_map.mp he
  intro hnil
  have hlen := congrArg List.length hnil
  rw [List.length_mergeSort, List.length_map, List.length_nil] at hlen
  exact hinv pe hpe (List.length_eq_zero.mp hlen)

/-- C10 witness: the openai bucket of the seeded registry is non-empty. -/
theorem catalog_providers_never_empty_witness :
    (("openai",
      [("gpt-4.1", 0), ("gpt-4.1-mini", 1), ("o4-mini", 2), ("o3", 3),
       ("gpt-5", 4), ("gpt-5-mini", 5), ("gpt-5-nano", 6)]) :
      String × List (String × Nat)).2 ≠ [] :=
  (catalog_providers_never_empty {} [] [] []).1
    ("openai",
      [("gpt-4.1", 0), ("gpt-4.1-mini", 1), ("o4-mini", 2), ("o3", 3),
       ("gpt-5", 4), ("gpt-5-mini", 5), ("gpt-5-nano", 6)])
    (by decide)

/-! ### Claim C9: catalog/metadata lockstep -/

/-- Every (provider, model) entry of the catalog has a metadata record. -/
def MetaLockstep (s : RegistryState) : Prop :=
  ∀ pe ∈ s.allModels, ∀ me ∈ pe.2,
    (alGet s.modelMetadata (modelKey pe.1 me.1)).isSome = true

/-- All catalogued provider identifiers are colon-free. -/
def ProvidersColonFree (s : RegistryState) : Prop :=
  ∀ pe ∈ s.allModels, ':' ∉ pe.1.data

/-- The combined lockstep invariant. -/
def RegInv (s : RegistryState) : Prop := MetaLockstep s ∧ ProvidersColonFree s

theorem regInv_registerWith (s : RegistryState) (p n : String)
    (o : RegisterOptions) (h nh : Nat) (hp : ':' ∉ p.data) (hs : RegInv s) :
    RegInv (registerWith s p n o h nh) := by
  obtain ⟨hms, hcf⟩ := hs
  constructor
  · intro pe hpe me hme
    rcases mem_alSet _ _ _ _ hpe with he | he
    · rw [he] at hme ⊢
      rcases mem_alSet _ _ _ _ hme with hm | hm
    -- the freshly written entry has its metadata written in the same step
      · rw [hm]
        show (alGet (alSet s.modelMetadata (modelKey p n)
          (mkRegisteredMeta p n o)) (modelKey p n)).isSome = true
        rw [alGet_alSet_self]
        rfl
      · cases hb : alGet s.allModels p with
        | some b =>
          exact isSome_alGet_alSet _ _ _ _
            (hms (p, b) (mem_of_alGet _ _ _ hb) me (by rw [hb] at hm; exact hm))
        | none =>
          rw [hb] at hm
          simp at hm
    · exact isSome_alGet_alSet _ _ _ _ (hms pe he me hme)
  · intro pe hpe
    rcases mem_alSet _ _ _ _ hpe with he | he
    · rw [he]
      exact hp
    · exact hcf pe he

theorem regInv_registerModel (s : RegistryState) (p n : String)
    (o : RegisterOptions) (hp : ':' ∉ p.data) (hs : RegInv s) :
    RegInv (registerModel s p n o) := by
  rw [registerModel.eq_def]
  cases o.model with
  | some h => exact regInv_registerWith s p n o h s.nextHandle hp hs
  | none =>
    by_cases hf : providerFactories.contains p = true
    · rw [if_pos hf]
      exact regInv_registerWith s p n o s.nextHandle (s.nextHandle + 1) hp hs
    · rw [if_neg hf]
      exact hs

theorem regInv_clearProvider (s : RegistryState) (q : String)
    (hq : ':' ∉ q.data) (hs : RegInv s) : RegInv (clearProvider s q) := by
  obtain ⟨hms, hcf⟩ := hs
  constructor
  · intro pe hpe me hme
    obtain ⟨hin, hne⟩ := mem_alErase _ _ _ hpe
    show (alGet (alFilterKeys s.modelMetadata
      (fun key => !(jsStartsWith key (q ++ "::")))) (modelKey pe.1 me.1)).isSome = true
    rw [alGet_alFilterKeys_of_pos _ _ _
      (by rw [jsStartsWith_modelKey_ne q pe.1 me.1 hq (hcf pe hin)
        (fun e => hne e.symm)]; rfl)]
    exact hms pe hin me hme
  · intro pe hpe
    exact hcf pe (mem_alErase _ _ _ hpe).1

theorem regInv_registerFetched (s : RegistryState) (p : String)
    (ms : List ModelRegistration) (hp : ':' ∉ p.data) (hs : RegInv s) :
    RegInv (registerFetched s p ms) := by
  induction ms generalizing s with
  | nil => exact hs
  | cons e ms ih => exact ih _ (regInv_registerModel _ _ _ _ hp hs)

theorem regInv_settleFold (rs : List (String × List ModelRegistration))
    (s : RegistryState) (hrs : ∀ pr ∈ rs, ':' ∉ pr.1.data) (hs : RegInv s) :
    RegInv (rs.foldl
      (fun st pr =>
        if pr.2.isEmpty then st
        else registerFetched (clearProvider st pr.1) pr.1 pr.2) s) := by
  induction rs generalizing s with
  | nil => exact hs
  | cons pr rs ih =>
    rw [List.foldl_cons]
    have hq : ':' ∉ pr.1.data := hrs pr (List.mem_cons_self _ _)
    have hrs' : ∀ pr2 ∈ rs, ':' ∉ pr2.1.data :=
      fun pr2 h2 => hrs pr2 (List.mem_cons_of_mem _ h2)
    by_cases he : pr.2.isEmpty
    · rw [if_pos he]
      exact ih _ hrs' hs
    · rw [if_neg he]
      exact ih _ hrs'
        (regInv_registerFetched _ _ _ hq (regInv_clearProvider _ _ hq hs))

theorem regInv_settleRound (env : Env) (ek : List (String × Bool))
    (fo : List (String × FetchResult)) (s : RegistryState) (hs : RegInv s) :
    RegInv (settleRound env ek fo s) := by
  rw [settleRound]
  apply regInv_settleFold _ _ _ hs
  intro pr hpr
  obtain ⟨q, hq, rfl⟩ := List.mem_map.mp hpr
  have hall : ∀ q2 ∈ fetchProviders, ':' ∉ q2.data := by decide
  exact hall q hq

theorem providerFactories_colon_free :
    ∀ p, providerFactories.contains p = true → ':' ∉ p.data := by
  intro p hf
  have hm : p ∈ providerFactories := by
    simpa using hf
  have hall : ∀ q ∈ providerFactories, ':' ∉ q.data := by decide
  exact hall p hm

theorem regInv_fallbackModel (s : RegistryState) (hs : RegInv s) :
    RegInv (fallbackModel s).1 := by
  rw [fallbackModel.eq_def]
  cases hl : alGet ((alGet s.allModels "openai").getD []) "gpt-4.1" with
  | some h => exact hs
  | none =>
    rw [if_pos (by decide : providerFactories.contains "openai" = true)]
    exact regInv_registerModel _ _ _ _ (by decide) hs

theorem regInv_getModel (s : RegistryState) (ref : Option ChatModel)
    (hs : RegInv s) : RegInv (getModel s ref).1 := by
  cases ref with
  | none => exact regInv_fallbackModel s hs
  | some m =>
    cases hl : alGet ((alGet s.allModels m.provider).getD []) m.model with
    | some h => simpa [getModel, hl] using hs
    | none =>
      by_cases hf : providerFactories.contains m.provider = true
      · simp only [getModel, hl, if_pos hf]
        exact regInv_registerModel _ _ _ _ (providerFactories_colon_free _ hf) hs
      · simp only [getModel, hl, if_neg hf]
        exact regInv_fallbackModel s hs

theorem regInv_seedDynamic (dyn : List DynModel) :
    ∀ (s : RegistryState), (∀ d ∈ dyn, ':' ∉ d.provider.data) → RegInv s →
      RegInv (seedDynamic dyn s) := by
  induction dyn with
  | nil =>
    intro s _ hs
    exact hs
  | cons d dyn ih =>
    intro s hdyn hs
    rw [seedDynamic, List.foldl_cons]
    exact ih _ (fun d2 h2 => hdyn d2 (List.mem_cons_of_mem _ h2))
      (regInv_registerModel _ _ _ _ (hdyn d (List.mem_cons_self _ _)) hs)

theorem regInv_seedState (dyn : List DynModel)
    (hdyn : ∀ d ∈ dyn, ':' ∉ d.provider.data) : RegInv (seedState dyn) := by
  apply regInv_seedDynamic dyn _ hdyn
  constructor
  · have : ∀ pe ∈ (seedStatic
        { allModels := [], modelMetadata := [], nextHandle := 0 }).allModels,
        ∀ me ∈ pe.2,
        (alGet (seedStatic
          { allModels := [], modelMetadata := [], nextHandle := 0 }).modelMetadata
          (modelKey pe.1 me.1)).isSome = true := by decide
    exact this
  · have : ∀ pe ∈ (seedStatic
        { allModels := [], modelMetadata := [], nextHandle := 0 }).allModels,
        ':' ∉ pe.1.data := by decide
    exact this

/-- The colon-freeness side condition on an operation's provider argument. -/
def regOpColonFree : RegOp → Prop
  | .register p _ _ => ':' ∉ p.data
  | .clear p => ':' ∉ p.data
  | .settleR _ => True
  | .resolve _ => True

theorem regInv_applyRegOp (env : Env) (ek : List (String × Bool))
    (s : RegistryState) (op : RegOp) (hop : regOpColonFree op)
    (hs : RegInv s) : RegInv (applyRegOp env ek s op) := by
  cases op with
  | register p n o => exact regInv_registerModel _ _ _ _ hop hs
  | clear p => exact regInv_clearProvider _ _ hop hs
  | settleR fo => exact regInv_settleRound _ _ _ _ hs
  | resolve ref => exact regInv_getModel _ _ hs

/-- C9 (amended): after seed loading and after every registerModel,
clearProvider, refresh, or getModel operation, every (provider, model)
key in the catalog has a metadata record — provided every provider name
supplied to registerModel/clearProvider (and every dynamically configured
provider) contains no colon character, a condition all built-in providers
satisfy.  Without that proviso the claim fails (see the counterexample):
`clearProvider q` deletes the metadata of any catalogued provider whose
name extends `q` past a `"::"` separator while leaving its catalog
entries in place. -/
theorem catalog_metadata_lockstep (env : Env) (ek : List (String × Bool))
    (dyn : List DynModel) (ops : List RegOp)
    (hdyn : ∀ d ∈ dyn, ':' ∉ d.provider.data)
    (hops : ∀ op ∈ ops, regOpColonFree op) :
    ∀ pe ∈ (regReach env ek dyn ops).allModels, ∀ me ∈ pe.2,
      (alGet (regReach env ek dyn ops).modelMetadata
        (modelKey pe.1 me.1)).isSome = true := by
  have hfold : ∀ (l : List RegOp) (s : RegistryState),
      (∀ op ∈ l, regOpColonFree op) → RegInv s →
      RegInv (l.foldl (applyRegOp env ek) s) := by
    intro l
    induction l with
    | nil => exact fun s _ hs => hs
    | cons op l ih =>
      intro s hl hs
      rw [List.foldl_cons]
      exact ih _ (fun op2 h2 => hl op2 (List.mem_cons_of_mem _ h2))
        (regInv_applyRegOp env ek s op (hl op (List.mem_cons_self _ _)) hs)
  exact (hfold ops _ hops (regInv_seedState dyn hdyn)).1

/-- C9 witness: the lockstep invariant at a colon-free run. -/
theorem catalog_metadata_lockstep_witness :
    (alGet (regReach {} [] [] [.register "extra" "m" { model := some 99 }]).modelMetadata
      (modelKey "extra" "m")).isSome = true :=
  catalog_metadata_lockstep {} [] [] [.register "extra" "m" { model := some 99 }]
    (by decide)
    (by
      intro op hop
      rw [List.mem_singleton] at hop
      subst hop
      show ':' ∉ "extra".data
      decide)
    ("extra", [("m", 99)]) (by decide) ("m", 99) (by decide)

/-- C9 counterexample: as stated — for arbitrary provider strings — the
claim is false on the code.  Register a provider named `"groq::x"` (as the
dynamic configuration may), then run `clearProvider "groq"`: the catalog
still holds `("groq::x", "m") ↦ 99` but its metadata record is gone,
because the metadata sweep matches keys by the string test
`key.startsWith("groq::")`. -/
theorem catalog_metadata_lockstep_counterexample :
    alGet ((alGet (regReach {} [] []
        [.register "groq::x" "m" { model := some 99 }, .clear "groq"]).allModels
      "groq::x").getD []) "m" = some 99 ∧
    alGet (regReach {} [] []
        [.register "groq::x" "m" { model := some 99 }, .clear "groq"]).modelMetadata
      (modelKey "groq::x" "m") = none := by
  constructor
  · rfl
  · rfl

/-! ### Claim C3: per-provider replace-or-keep semantics of a round -/

theorem modelKey_name_inj (p a b : String) (h : modelKey p a = modelKey p b) :
    a = b := by
  have hd := congrArg String.data h
  simp only [modelKey, String.data_append] at hd
  exact String.ext (List.append_cancel_left hd)

/-- Registering under provider `q` does not touch provider `p`'s bucket or
metadata keys, for distinct colon-free providers. -/
theorem frame_registerModel (st : RegistryState) (q m : String)
    (o : RegisterOptions) (p : String) (hne : p ≠ q) (hp : ':' ∉ p.data)
    (hq : ':' ∉ q.data) :
    alGet (registerModel st q m o).allModels p = alGet st.allModels p ∧
    ∀ n, alGet (registerModel st q m o).modelMetadata (modelKey p n) =
      alGet st.modelMetadata (modelKey p n) := by
  have hkey : ∀ n, modelKey p n ≠ modelKey q m := by
    intro n he
    exact hne (modelKey_inj p q n m hp hq he).1
  rw [registerModel.eq_def]
  cases o.model with
  | some h =>
    exact ⟨alGet_alSet_ne _ _ _ _ hne, fun n => alGet_alSet_ne _ _ _ _ (hkey n)⟩
  | none =>
    by_cases hf : providerFactories.contains q = true
    · rw [if_pos hf]
      exact ⟨alGet_alSet_ne _ _ _ _ hne, fun n => alGet_alSet_ne _ _ _ _ (hkey n)⟩
    · rw [if_neg hf]
      exact ⟨rfl, fun n => rfl⟩

/-- Clearing provider `q` does not touch provider `p`'s bucket or metadata
keys, for distinct colon-free providers. -/
theorem frame_clearProvider (st : RegistryState) (q p : String) (hne : p ≠ q)
    (hp : ':' ∉ p.data) (hq : ':' ∉ q.data) :
    alGet (clearProvider st q).allModels p = alGet st.allModels p ∧
    ∀ n, alGet (clearProvider st q).modelMetadata (modelKey p n) =
      alGet st.modelMetadata (modelKey p n) := by
  constructor
  · exact alGet_alErase_ne _ _ _ hne
  · intro n
    exact alGet_alFilterKeys_of_pos _ _ _
      (by rw [jsStartsWith_modelKey_ne q p n hq hp (fun e => hne e.symm)]; rfl)

theorem frame_registerFetched (q : String) (ms : List ModelRegistration)
    (p : String) (hne : p ≠ q) (hp : ':' ∉ p.data) (hq : ':' ∉ q.data) :
    ∀ st : RegistryState,
      alGet (registerFetched st q ms).allModels p = alGet st.allModels p ∧
      ∀ n, alGet (registerFetched st q ms).modelMetadata (modelKey p n) =
        alGet st.modelMetadata (modelKey p n) := by
  induction ms with
  | nil => exact fun st => ⟨rfl, fun n => rfl⟩
  | cons e ms ih =>
    intro st
    have hstep : registerFetched st q (e :: ms) =
        registerFetched (registerModel st q e.name
          { displayName := e.displayName, apiName := e.apiName,
            isToolCallUnsupported := e.isToolCallUnsupported,
            isImageInputUnsupported := e.isImageInputUnsupported,
            model := none }) q ms := rfl
    rw [hstep]
    constructor
    · rw [(ih _).1, (frame_registerModel st q e.name _ p hne hp hq).1]
    · intro n
      rw [(ih _).2 n, (frame_registerModel st q e.name _ p hne hp hq).2 n]

/-- One fold step of a round for provider `q` leaves provider `p` alone. -/
theorem frame_settleFold (p : String) (hp : ':' ∉ p.data) :
    ∀ (rs : List (String × List ModelRegistration)) (st : RegistryState),
      (∀ pr ∈ rs, pr.1 ≠ p ∧ ':' ∉ pr.1.data) →
      alGet ((rs.foldl
        (fun st pr =>
          if pr.2.isEmpty then st
          else registerFetched (clearProvider st pr.1) pr.1 pr.2) st)).allModels p =
        alGet st.allModels p ∧
      ∀ n, alGet ((rs.foldl
        (fun st pr =>
          if pr.2.isEmpty then st
          else registerFetched (clearProvider st pr.1) pr.1 pr.2) st)).modelMetadata
          (modelKey p n) =
        alGet st.modelMetadata (modelKey p n) := by
  intro rs
  induction rs with
  | nil => exact fun st _ => ⟨rfl, fun n => rfl⟩
  | cons pr rs ih =>
    intro st hrs
    obtain ⟨hne, hq⟩ := hrs pr (List.mem_cons_self _ _)
    have hrs' : ∀ pr2 ∈ rs, pr2.1 ≠ p ∧ ':' ∉ pr2.1.data :=
      fun pr2 h2 => hrs pr2 (List.mem_cons_of_mem _ h2)
    rw [List.foldl_cons]
    by_cases he : pr.2.isEmpty
    · rw [if_pos he]
      exact ih st hrs'
    · rw [if_neg he]
      have hfr := frame_registerFetched pr.1 pr.2 p (fun e => hne e.symm) hp hq
        (clearProvider st pr.1)
      have hfc := frame_clearProvider st pr.1 p (fun e => hne e.symm) hp hq
      constructor
      · rw [(ih _ hrs').1, hfr.1, hfc.1]
      · intro n
        rw [(ih _ hrs').2 n, hfr.2 n, hfc.2 n]

/-- After a clear, provider `p` has no bucket and no metadata keys. -/
theorem clearProvider_self (st : RegistryState) (p : String) :
    alGet (clearProvider st p).allModels p = none ∧
    ∀ n, alGet (clearProvider st p).modelMetadata (modelKey p n) = none := by
  constructor
  · exact alGet_alErase_self _ _
  · intro n
    exact alGet_alFilterKeys_of_neg _ _ _
      (by rw [jsStartsWith_modelKey_self]; rfl)

/-- Registering a fetched model list adds exactly its names to provider
`p`'s bucket and metadata keys. -/
theorem registerFetched_self_mem (p : String)
    (hfac : providerFactories.contains p = true) (ms : List ModelRegistration) :
    ∀ (st : RegistryState) (n : String),
      ((alGet ((alGet (registerFetched st p ms).allModels p).getD []) n).isSome = true ↔
        (alGet ((alGet st.allModels p).getD []) n).isSome = true ∨
          n ∈ ms.map ModelRegistration.name) ∧
      ((alGet (registerFetched st p ms).modelMetadata (modelKey p n)).isSome = true ↔
        (alGet st.modelMetadata (modelKey p n)).isSome = true ∨
          n ∈ ms.map ModelRegistration.name) := by
  induction ms with
  | nil =>
    intro st n
    simp [registerFetched]
  | cons e ms ih =>
    intro st n
    have hstep : registerFetched st p (e :: ms) =
        registerFetched (registerModel st p e.name
          { displayName := e.displayName, apiName := e.apiName,
            isToolCallUnsupported := e.isToolCallUnsupported,
            isImageInputUnsupported := e.isImageInputUnsupported,
            model := none }) p ms := rfl
    rw [hstep]
    obtain ⟨ih1, ih2⟩ := ih (registerModel st p e.name
      { displayName := e.displayName, apiName := e.apiName,
        isToolCallUnsupported := e.isToolCallUnsupported,
        isImageInputUnsupported := e.isImageInputUnsupported,
        model := none }) n
    have hb1 : alGet ((alGet (registerModel st p e.name
        { displayName := e.displayName, apiName := e.apiName,
          isToolCallUnsupported := e.isToolCallUnsupported,
          isImageInputUnsupported := e.isImageInputUnsupported,
          model := none }).allModels p).getD []) n =
        alGet (alSet ((alGet st.allModels p).getD []) e.name st.nextHandle) n := by
      simp only [registerModel, if_pos hfac, registerWith, alGet_alSet_self,
        Option.getD_some]
    have hm1 : alGet (registerModel st p e.name
        { displayName := e.displayName, apiName := e.apiName,
          isToolCallUnsupported := e.isToolCallUnsupported,
          isImageInputUnsupported := e.isImageInputUnsupported,
          model := none }).modelMetadata (modelKey p n) =
        alGet (alSet st.modelMetadata (modelKey p e.name)
          (mkRegisteredMeta p e.name
            { displayName := e.displayName, apiName := e.apiName,
              isToolCallUnsupported := e.isToolCallUnsupported,
              isImageInputUnsupported := e.isImageInputUnsupported,
              model := none })) (modelKey p n) := by
      simp only [registerModel, if_pos hfac, registerWith]
    rw [ih1, ih2, hb1, hm1, List.map_cons, List.mem_cons]
    by_cases hn : n = e.name
    · subst hn
      rw [alGet_alSet_self, alGet_alSet_self]
      simp
    · rw [alGet_alSet_ne _ _ _ _ hn,
        alGet_alSet_ne _ _ _ _ (fun he2 => hn (modelKey_name_inj p n e.name he2))]
      constructor <;> (constructor <;> tauto)

/-- C3: at the end of a refresh round, a fetched provider that returned at
least one model holds exactly the returned name set in both catalog and
metadata (prior entries cleared), while a provider that returned zero
models keeps its bucket and metadata keys exactly as before. -/
theorem refresh_round_per_provider (env : Env) (ek : List (String × Bool))
    (fo : List (String × FetchResult)) (s : RegistryState) (p : String)
    (hp : p ∈ fetchProviders) :
    (effModels env ek fo p = [] →
      alGet (settleRound env ek fo s).allModels p = alGet s.allModels p ∧
      ∀ n, alGet (settleRound env ek fo s).modelMetadata (modelKey p n) =
        alGet s.modelMetadata (modelKey p n)) ∧
    (effModels env ek fo p ≠ [] →
      ∀ n,
        ((alGet ((alGet (settleRound env ek fo s).allModels p).getD []) n).isSome = true ↔
          n ∈ (effModels env ek fo p).map ModelRegistration.name) ∧
        ((alGet (settleRound env ek fo s).modelMetadata (modelKey p n)).isSome = true ↔
          n ∈ (effModels env ek fo p).map ModelRegistration.name)) := by
  obtain ⟨L1, L2, hL⟩ := List.append_of_mem hp
  have hnd : fetchProviders.Nodup := by decide
  have hcfAll : ∀ q ∈ fetchProviders, ':' ∉ q.data := by decide
  have hfacAll : ∀ q ∈ fetchProviders, providerFactories.contains q = true := by decide
  have hcfp : ':' ∉ p.data := hcfAll p hp
  have hfac : providerFactories.contains p = true := hfacAll p hp
  rw [hL] at hnd
  rw [List.nodup_append] at hnd
  obtain ⟨hnd1, hnd2, hdisj⟩ := hnd
  have hp1 : p ∉ L1 := fun h => hdisj h (List.mem_cons_self _ _)
  have hp2 : p ∉ L2 := (List.nodup_cons.mp hnd2).1
  have hq1 : ∀ q ∈ L1, ':' ∉ q.data :=
    fun q hq => hcfAll q (hL ▸ List.mem_append_left _ hq)
  have hq2 : ∀ q ∈ L2, ':' ∉ q.data :=
    fun q hq => hcfAll q (hL ▸ List.mem_append_right _ (List.mem_cons_of_mem _ hq))
  rw [settleRound, hL, List.map_append, List.foldl_append, List.map_cons,
    List.foldl_cons]
  have hside1 : ∀ pr ∈ L1.map (fun q => (q, effModels env ek fo q)),
      pr.1 ≠ p ∧ ':' ∉ pr.1.data := by
    intro pr hpr
    obtain ⟨q, hq, rfl⟩ := List.mem_map.mp hpr
    exact ⟨fun e => hp1 (e ▸ hq), hq1 q hq⟩
  have hside2 : ∀ pr ∈ L2.map (fun q => (q, effModels env ek fo q)),
      pr.1 ≠ p ∧ ':' ∉ pr.1.data := by
    intro pr hpr
    obtain ⟨q, hq, rfl⟩ := List.mem_map.mp hpr
    exact ⟨fun e => hp2 (e ▸ hq), hq2 q hq⟩
  have hfr1 := frame_settleFold p hcfp (L1.map (fun q => (q, effModels env ek fo q))) s
    hside1
  constructor
  · intro he
    rw [if_pos (show ((p, effModels env ek fo p) :
        String × List ModelRegistration).2.isEmpty = true by rw [he]; rfl)]
    have hfr2 := frame_settleFold p hcfp
      (L2.map (fun q => (q, effModels env ek fo q)))
      ((L1.map (fun q => (q, effModels env ek fo q))).foldl
        (fun st pr =>
          if pr.2.isEmpty then st
          else registerFetched (clearProvider st pr.1) pr.1 pr.2) s) hside2
    constructor
    · rw [hfr2.1, hfr1.1]
    · intro n
      rw [hfr2.2 n, hfr1.2 n]
  · intro he n
    rw [if_neg (show ¬ ((p, effModels env ek fo p) :
        String × List ModelRegistration).2.isEmpty = true from
      fun hc => he (by simpa [List.isEmpty_iff] using hc))]
    have hfr2 := frame_settleFold p hcfp
      (L2.map (fun q => (q, effModels env ek fo q)))
      (registerFetched (clearProvider
        ((L1.map (fun q => (q, effModels env ek fo q))).foldl
          (fun st pr =>
            if pr.2.isEmpty then st
            else registerFetched (clearProvider st pr.1) pr.1 pr.2) s) p) p
        (effModels env ek fo p)) hside2
    have hclear := clearProvider_self
      ((L1.map (fun q => (q, effModels env ek fo q))).foldl
        (fun st pr =>
          if pr.2.isEmpty then st
          else registerFetched (clearProvider st pr.1) pr.1 pr.2) s) p
    have hreg := registerFetched_self_mem p hfac (effModels env ek fo p)
      (clearProvider
        ((L1.map (fun q => (q, effModels env ek fo q))).foldl
          (fun st pr =>
            if pr.2.isEmpty then st
            else registerFetched (clearProvider st pr.1) pr.1 pr.2) s) p) n
    constructor
    · rw [hfr2.1, hreg.1, hclear.1]
      simp [alGet]
    · rw [hfr2.2 n, hreg.2, hclear.2 n]
      simp

/-- C3 witness: with a valid groq key and a round in which only groq
returns one model named "m2", the groq bucket afterwards holds exactly
"m2". -/
theorem refresh_round_per_provider_witness :
    (alGet ((alGet (settleRound { groqApiKey := some "k" } []
        [("groq", .ok [{ name := "m2" }])] (seedState [])).allModels
        "groq").getD []) "m2").isSome = true :=
  (((refresh_round_per_provider { groqApiKey := some "k" } []
      [("groq", .ok [{ name := "m2" }])] (seedState []) "groq"
      (by decide)).2 (by decide) "m2").1).mpr (by decide)

/-! ### Claim C1: single-flight refresh -/

theorem pc_set_other (cs : List CallerPc) (i j : Nat) (v pc : CallerPc)
    (hj : (cs.set i v)[j]? = some pc) :
    (i = j ∧ pc = v) ∨ (i ≠ j ∧ cs[j]? = some pc) := by
  rw [List.getElem?_set] at hj
  by_cases hij : i = j
  · rw [if_pos hij] at hj
    by_cases hlt : i < cs.length
    · rw [if_pos hlt] at hj
      exact Or.inl ⟨hij, (Option.some_inj.mp hj).symm⟩
    · rw [if_neg hlt] at hj
      exact nomatch hj
  · rw [if_neg hij] at hj
    exact Or.inr ⟨hij, hj⟩

theorem init_pc (forces : List Bool) (i : Nat) (pc : CallerPc)
    (h : (forces.map CallerPc.entry)[i]? = some pc) : ∃ b, pc = .entry b := by
  rw [List.getElem?_map] at h
  cases hf : forces[i]? with
  | none => rw [hf] at h; exact nomatch h
  | some b =>
    rw [hf] at h
    exact ⟨b, (Option.some_inj.mp h).symm⟩

/-- The coordinator invariants: any unfinished round is the current one,
round ids stay below the counter, a waiting starter's round is the current
one and is started, and distinct starters wait on distinct rounds. -/
structure SysInv (s : SysState) : Prop where
  unfinished_current : ∀ r ∈ s.started, r ∉ s.finished → s.current = some r
  started_lt : ∀ r ∈ s.started, r < s.nextRid
  starter_current : ∀ (i r : Nat),
    s.callers[i]? = some (.starterWait r) → s.current = some r
  starter_started : ∀ (i r : Nat),
    s.callers[i]? = some (.starterWait r) → r ∈ s.started
  starter_unique : ∀ (i j r r' : Nat),
    s.callers[i]? = some (.starterWait r) →
    s.callers[j]? = some (.starterWait r') → i ≠ j → r ≠ r'

theorem sysInv_init (env : Env) (ek : List (String × Bool))
    (reg0 : RegistryState) (forces : List Bool) (t0 : Nat) :
    SysInv (initSys env ek reg0 forces t0) := by
  refine ⟨?_, ?_, ?_, ?_, ?_⟩
  · intro r hr _
    exact absurd hr (List.not_mem_nil r)
  · intro r hr
    exact absurd hr (List.not_mem_nil r)
  · intro i r hc
    obtain ⟨b, hb⟩ := init_pc forces i _ hc
    exact nomatch hb
  · intro i r hc
    obtain ⟨b, hb⟩ := init_pc forces i _ hc
    exact nomatch hb
  · intro i j r r' hi _ _
    obtain ⟨b, hb⟩ := init_pc forces i _ hi
    exact nomatch hb

/-- Setting one caller to a pc that is not a starter wait preserves the
invariants when no other field moves. -/
theorem sysInv_set_non_starter (s : SysState) (i : Nat) (v : CallerPc)
    (hv : ∀ r, v ≠ .starterWait r) (h : SysInv s) :
    SysInv { s with callers := s.callers.set i v } := by
  refine ⟨h.unfinished_current, h.started_lt, ?_, ?_, ?_⟩
  · intro j r hj
    rcases pc_set_other s.callers i j v _ hj with ⟨_, hpc⟩ | ⟨_, hj'⟩
    · exact absurd hpc.symm (hv r)
    · exact h.starter_current j r hj'
  · intro j r hj
    rcases pc_set_other s.callers i j v _ hj with ⟨_, hpc⟩ | ⟨_, hj'⟩
    · exact absurd hpc.symm (hv r)
    · exact h.starter_started j r hj'
  · intro j k r r' hj hk hne
    rcases pc_set_other s.callers i j v _ hj with ⟨_, hpc⟩ | ⟨_, hj'⟩
    · exact absurd hpc.symm (hv r)
    · rcases pc_set_other s.callers i k v _ hk with ⟨_, hpc⟩ | ⟨_, hk'⟩
      · exact absurd hpc.symm (hv r')
      · exact h.starter_unique j k r r' hj' hk' hne

theorem sysInv_step (s : SysState) (l : StepLabel) (h : SysInv s) :
    SysInv (step s l) := by
  cases l with
  | tick d =>
    exact ⟨h.unfinished_current, h.started_lt, h.starter_current,
      h.starter_started, h.starter_unique⟩
  | call i =>
    cases hc : s.callers[i]? with
    | none => simpa only [step, hc] using h
    | some pc =>
      cases pc with
      | done => simpa only [step, hc] using h
      | starterWait r0 => simpa only [step, hc] using h
      | joining r0 => simpa only [step, hc] using h
      | entry f =>
        simp only [step, hc]
        by_cases ht : f = false ∧ s.now - s.lastRefreshAt < refreshTTL
        · rw [if_pos ht]
          exact sysInv_set_non_starter s i .done (fun r he => nomatch he) h
        · rw [if_neg ht]
          cases hcur : s.current with
          | some r0 =>
            have hres := sysInv_set_non_starter s i (.joining r0)
              (fun r he => nomatch he) h
            rw [hcur] at hres
            exact hres
          | none =>
            refine ⟨?_, ?_, ?_, ?_, ?_⟩
            · intro r hr hnf
              rcases List.mem_append.mp hr with hro | hrn
              · have hcr := h.unfinished_current r hro hnf
                rw [hcur] at hcr
                exact nomatch hcr
              · rw [List.mem_singleton] at hrn
                rw [hrn]
            · intro r hr
              rcases List.mem_append.mp hr with hro | hrn
              · exact Nat.lt_trans (h.started_lt r hro) (Nat.lt_succ_self _)
              · rw [List.mem_singleton] at hrn
                exact hrn ▸ Nat.lt_succ_self _
            · intro j r hj
              rcases pc_set_other s.callers i j (.starterWait s.nextRid) _ hj
                with ⟨_, hpc⟩ | ⟨_, hj'⟩
              · injection hpc with hr
                rw [hr]
              · have hcr := h.starter_current j r hj'
                rw [hcur] at hcr
                exact nomatch hcr
            · intro j r hj
              rcases pc_set_other s.callers i j (.starterWait s.nextRid) _ hj
                with ⟨_, hpc⟩ | ⟨_, hj'⟩
              · injection hpc with hr
                exact List.mem_append_right _ (by rw [hr]; exact List.mem_singleton.mpr rfl)
              · exact List.mem_append_left _ (h.starter_started j r hj')
            · intro j k r r' hj hk hne
              rcases pc_set_other s.callers i j (.starterWait s.nextRid) _ hj
                with ⟨hij, _⟩ | ⟨_, hj'⟩
              · rcases pc_set_other s.callers i k (.starterWait s.nextRid) _ hk
                  with ⟨hik, _⟩ | ⟨_, hk'⟩
                · exact absurd (hij ▸ hik) hne
                · have hcr := h.starter_current k r' hk'
                  rw [hcur] at hcr
                  exact nomatch hcr
              · have hcr := h.starter_current j r hj'
                rw [hcur] at hcr
                exact nomatch hcr
  | settle rid fo =>
    simp only [step]
    by_cases hcond : rid ∈ s.started ∧ rid ∉ s.finished
    · rw [if_pos hcond]
      refine ⟨?_, h.started_lt, h.starter_current, h.starter_started,
        h.starter_unique⟩
      intro r hr hnf
      exact h.unfinished_current r hr
        (fun hm => hnf (List.mem_append_left _ hm))
    · rw [if_neg hcond]
      exact h
  | resume i =>
    cases hc : s.callers[i]? with
    | none => simpa only [step, hc] using h
    | some pc =>
      cases pc with
      | entry f => simpa only [step, hc] using h
      | joining r0 => simpa only [step, hc] using h
      | done => simpa only [step, hc] using h
      | starterWait r0 =>
        simp only [step, hc]
        by_cases hf : r0 ∈ s.finished
        · rw [if_pos hf]
          have hcur0 : s.current = some r0 := h.starter_current i r0 hc
          refine ⟨?_, h.started_lt, ?_, ?_, ?_⟩
          · intro r hr hnf
            have hcr := h.unfinished_current r hr hnf
            rw [hcur0] at hcr
            have hrr : r0 = r := Option.some_inj.mp hcr
            exact absurd hf (hrr ▸ hnf)
          · intro j r hj
            rcases pc_set_other s.callers i j .done _ hj with ⟨_, hpc⟩ | ⟨hij, hj'⟩
            · exact nomatch hpc
            · have hcr := h.starter_current j r hj'
              rw [hcur0] at hcr
              have hrr : r0 = r := Option.some_inj.mp hcr
              exact absurd hrr (h.starter_unique i j r0 r hc hj' hij)
          · intro j r hj
            rcases pc_set_other s.callers i j .done _ hj with ⟨_, hpc⟩ | ⟨_, hj'⟩
            · exact nomatch hpc
            · exact h.starter_started j r hj'
          · intro j k r r' hj hk hne
            rcases pc_set_other s.callers i j .done _ hj with ⟨_, hpc⟩ | ⟨_, hj'⟩
            · exact nomatch hpc
            · rcases pc_set_other s.callers i k .done _ hk with ⟨_, hpc⟩ | ⟨_, hk'⟩
              · exact nomatch hpc
              · exact h.starter_unique j k r r' hj' hk' hne
        · rw [if_neg hf]
          exact h
  | joinFinish i =>
    cases hc : s.callers[i]? with
    | none => simpa only [step, hc] using h
    | some pc =>
      cases pc with
      | entry f => simpa only [step, hc] using h
      | starterWait r0 => simpa only [step, hc] using h
      | done => simpa only [step, hc] using h
      | joining r0 =>
        simp only [step, hc]
        by_cases hf : r0 ∈ s.finished
        · rw [if_pos hf]
          exact sysInv_set_non_starter s i .done (fun r he => nomatch he) h
        · rw [if_neg hf]
          exact h

theorem sysInv_reach (env : Env) (ek : List (String × Bool))
    (reg0 : RegistryState) (forces : List Bool) (t0 : Nat)
    (tr : List StepLabel) : SysInv (reach env ek reg0 forces t0 tr) := by
  suffices hgen : ∀ (tr2 : List StepLabel) (s : SysState), SysInv s →
      SysInv (tr2.foldl step s) by
    exact hgen tr _ (sysInv_init env ek reg0 forces t0)
  intro tr2
  induction tr2 with
  | nil => exact fun s hs => hs
  | cons l tr2 ih =>
    intro s hs
    rw [List.foldl_cons]
    exact ih _ (sysInv_step s l hs)

/-- While the in-flight marker is set, no step changes the set of started
rounds (the start branch requires `currentRefresh` to be null). -/
theorem step_started_of_current (s : SysState) (r : Nat)
    (hcur : s.current = some r) : ∀ l, (step s l).started = s.started := by
  intro l
  cases l with
  | tick d => rfl
  | call i =>
    cases hc : s.callers[i]? with
    | none => simp only [step, hc]
    | some pc =>
      cases pc with
      | entry f =>
        simp only [step, hc, hcur]
        by_cases ht : f = false ∧ s.now - s.lastRefreshAt < refreshTTL
        · rw [if_pos ht]
        · rw [if_neg ht]
      | starterWait r2 => simp only [step, hc]
      | joining r2 => simp only [step, hc]
      | done => simp only [step, hc]
  | settle rid fo =>
    simp only [step]
    by_cases hcond : rid ∈ s.started ∧ rid ∉ s.finished
    · rw [if_pos hcond]
    · rw [if_neg hcond]
  | resume i =>
    cases hc : s.callers[i]? with
    | none => simp only [step, hc]
    | some pc =>
      cases pc with
      | starterWait r2 =>
        simp only [step, hc]
        by_cases hf : r2 ∈ s.finished
        · rw [if_pos hf]
        · rw [if_neg hf]
      | entry f => simp only [step, hc]
      | joining r2 => simp only [step, hc]
      | done => simp only [step, hc]
  | joinFinish i =>
    cases hc : s.callers[i]? with
    | none => simp only [step, hc]
    | some pc =>
      cases pc with
      | joining r2 =>
        simp only [step, hc]
        by_cases hf : r2 ∈ s.finished
        · rw [if_pos hf]
        · rw [if_neg hf]
      | entry f => simp only [step, hc]
      | starterWait r2 => simp only [step, hc]
      | done => simp only [step, hc]

/-- A caller reaching the in-flight check while a round is current joins
that same round. -/
theorem call_joins_inflight (s : SysState) (i : Nat) (f : Bool) (r : Nat)
    (hc : s.callers[i]? = some (.entry f)) (hcur : s.current = some r)
    (hnt : ¬(f = false ∧ s.now - s.lastRefreshAt < refreshTTL)) :
    step s (.call i) = { s with callers := s.callers.set i (.joining r) } := by
  simp only [step, hc, hcur]
  rw [if_neg hnt]

/-- A joining caller completes in one step only if its round has settled. -/
theorem joiner_done_after_finish (s : SysState) (i r : Nat) (l : StepLabel)
    (hj : s.callers[i]? = some (.joining r))
    (hd : (step s l).callers[i]? = some .done) : r ∈ s.finished := by
  cases l with
  | tick d =>
    rw [show (step s (.tick d)).callers = s.callers from rfl, hj] at hd
    simp at hd
  | call j =>
    cases hc : s.callers[j]? with
    | none =>
      simp only [step, hc] at hd
      rw [hj] at hd
      simp at hd
    | some pc =>
      cases pc with
      | entry f =>
        have hij : j ≠ i := fun e => by
          rw [e, hj] at hc
          exact nomatch (Option.some_inj.mp hc)
        simp only [step, hc] at hd
        by_cases ht : f = false ∧ s.now - s.lastRefreshAt < refreshTTL
        · rw [if_pos ht] at hd
          rw [List.getElem?_set_ne hij, hj] at hd
          simp at hd
        · rw [if_neg ht] at hd
          cases hcur : s.current with
          | some r2 =>
            simp only [hcur] at hd
            rw [List.getElem?_set_ne hij, hj] at hd
            simp at hd
          | none =>
            simp only [hcur] at hd
            rw [List.getElem?_set_ne hij, hj] at hd
            simp at hd
      | starterWait r2 =>
        simp only [step, hc] at hd
        rw [hj] at hd
        simp at hd
      | joining r2 =>
        simp only [step, hc] at hd
        rw [hj] at hd
        simp at hd
      | done =>
        simp only [step, hc] at hd
        rw [hj] at hd
        simp at hd
  | settle rid fo =>
    have hcal : (step s (.settle rid fo)).callers = s.callers := by
      simp only [step]
      by_cases hcond : rid ∈ s.started ∧ rid ∉ s.finished
      · rw [if_pos hcond]
      · rw [if_neg hcond]
    rw [hcal, hj] at hd
    simp at hd
  | resume j =>
    cases hc : s.callers[j]? with
    | none =>
      simp only [step, hc] at hd
      rw [hj] at hd
      simp at hd
    | some pc =>
      cases pc with
      | starterWait r2 =>
        have hij : j ≠ i := fun e => by
          rw [e, hj] at hc
          exact nomatch (Option.some_inj.mp hc)
        simp only [step, hc] at hd
        by_cases hf : r2 ∈ s.finished
        · rw [if_pos hf] at hd
          rw [List.getElem?_set_ne hij, hj] at hd
          simp at hd
        · rw [if_neg hf] at hd
          rw [hj] at hd
          simp at hd
      | entry f =>
        simp only [step, hc] at hd
        rw [hj] at hd
        simp at hd
      | joining r2 =>
        simp only [step, hc] at hd
        rw [hj] at hd
        simp at hd
      | done =>
        simp only [step, hc] at hd
        rw [hj] at hd
        simp at hd
  | joinFinish j =>
    cases hc : s.callers[j]? with
    | none =>
      simp only [step, hc] at hd
      rw [hj] at hd
      simp at hd
    | some pc =>
      cases pc with
      | joining r2 =>
        simp only [step, hc] at hd
        by_cases hf : r2 ∈ s.finished
        · rw [if_pos hf] at hd
          by_cases hij : j = i
          · have hrr : r2 = r := by
              rw [hij, hj] at hc
              injection Option.some_inj.mp hc with hn
              exact hn.symm
            exact hrr ▸ hf
          · rw [List.getElem?_set_ne hij, hj] at hd
            simp at hd
        · rw [if_neg hf] at hd
          rw [hj] at hd
          simp at hd
      | entry f =>
        simp only [step, hc] at hd
        rw [hj] at hd
        simp at hd
      | starterWait r2 =>
        simp only [step, hc] at hd
        rw [hj] at hd
        simp at hd
      | done =>
        simp only [step, hc] at hd
        rw [hj] at hd
        simp at hd

/-- C1 (amended): in every state reachable from process start, (i) at most
one refresh is in flight; (ii) while one is in flight no step starts a
second fetch round, whatever the force flag; (iii) a caller that reaches
the in-flight check (forced, or outside the throttle window) joins that
same in-flight round; and (iv) a joining caller completes only after that
round has finished.  The original claim's "with any force value" fails:
a non-forced call inside the throttle window returns immediately without
awaiting the in-flight refresh (see the counterexample). -/
theorem refresh_single_flight (env : Env) (ek : List (String × Bool))
    (reg0 : RegistryState) (forces : List Bool) (t0 : Nat)
    (tr : List StepLabel) :
    (∀ r1 r2, r1 ∈ (reach env ek reg0 forces t0 tr).started →
      r1 ∉ (reach env ek reg0 forces t0 tr).finished →
      r2 ∈ (reach env ek reg0 forces t0 tr).started →
      r2 ∉ (reach env ek reg0 forces t0 tr).finished → r1 = r2) ∧
    (∀ r, r ∈ (reach env ek reg0 forces t0 tr).started →
      r ∉ (reach env ek reg0 forces t0 tr).finished →
      ∀ l, (step (reach env ek reg0 forces t0 tr) l).started =
        (reach env ek reg0 forces t0 tr).started) ∧
    (∀ (i : Nat) (f : Bool) (r : Nat),
      (reach env ek reg0 forces t0 tr).callers[i]? = some (.entry f) →
      (reach env ek reg0 forces t0 tr).current = some r →
      ¬(f = false ∧ (reach env ek reg0 forces t0 tr).now -
          (reach env ek reg0 forces t0 tr).lastRefreshAt < refreshTTL) →
      step (reach env ek reg0 forces t0 tr) (.call i) =
        { (reach env ek reg0 forces t0 tr) with
          callers := (reach env ek reg0 forces t0 tr).callers.set i (.joining r) }) ∧
    (∀ (i r : Nat) (l : StepLabel),
      (reach env ek reg0 forces t0 tr).callers[i]? = some (.joining r) →
      (step (reach env ek reg0 forces t0 tr) l).callers[i]? = some .done →
      r ∈ (reach env ek reg0 forces t0 tr).finished) := by
  have hinv := sysInv_reach env ek reg0 forces t0 tr
  refine ⟨?_, ?_, ?_, ?_⟩
  · intro r1 r2 h1 h1f h2 h2f
    have e1 := hinv.unfinished_current r1 h1 h1f
    have e2 := hinv.unfinished_current r2 h2 h2f
    rw [e1] at e2
    exact Option.some_inj.mp e2
  · intro r hr hf l
    exact step_started_of_current _ r (hinv.unfinished_current r hr hf) l
  · intro i f r hc hcur hnt
    exact call_joins_inflight _ i f r hc hcur hnt
  · intro i r l hj hd
    exact joiner_done_after_finish _ i r l hj hd

/-- C1 witness: with round 0 in flight, a second (forced) caller joins
round 0 instead of starting a new round. -/
theorem refresh_single_flight_witness :
    step (reach {} [] (seedState []) [true, true] 5 [.call 0]) (.call 1) =
      { (reach {} [] (seedState []) [true, true] 5 [.call 0]) with
        callers := (reach {} [] (seedState []) [true, true] 5
          [.call 0]).callers.set 1 (.joining 0) } :=
  (refresh_single_flight {} [] (seedState []) [true, true] 5 [.call 0]).2.2.1
    1 true 0 (by decide) (by decide) (by decide)

/-- C1 counterexample: the claim as stated ("with any force value ... the
caller awaits that same in-flight operation ... all concurrent callers
complete only after that one refresh finishes") is false.  Run: round 0 is
started by a forced call and settles at time 1000000; one second later a
second forced call starts round 1; while round 1 is still in flight a
non-forced caller invokes refresh and — because the throttle check runs
before the in-flight check — returns immediately, completing while the
in-flight refresh is still unfinished and without awaiting it. -/
theorem refresh_single_flight_counterexample :
    (reach {} [] (seedState []) [true, true, false] 1000000
      [.call 0, .settle 0 [], .resume 0, .tick 1000, .call 1]).current = some 1 ∧
    1 ∉ (reach {} [] (seedState []) [true, true, false] 1000000
      [.call 0, .settle 0 [], .resume 0, .tick 1000, .call 1]).finished ∧
    (reach {} [] (seedState []) [true, true, false] 1000000
      [.call 0, .settle 0 [], .resume 0, .tick 1000, .call 1]).callers[2]? =
      some (.entry false) ∧
    (step (reach {} [] (seedState []) [true, true, false] 1000000
      [.call 0, .settle 0 [], .resume 0, .tick 1000, .call 1])
      (.call 2)).callers[2]? = some .done ∧
    1 ∉ (step (reach {} [] (seedState []) [true, true, false] 1000000
      [.call 0, .settle 0 [], .resume 0, .tick 1000, .call 1])
      (.call 2)).finished := by
  refine ⟨by decide, by decide, by decide, by decide, by decide⟩

end Models
